import Mathlib

/-!
Verification of the zim-to-markdown migration engine (`zim2obs.py` / `zim2obsidian.py`).

The Python source is shallowly embedded: pure string manipulations become Lean
functions on `String` / `List Char`; the effectful parts (directory walking,
file-content signature checks, `Path.is_dir`, image decoding) are passed in as
explicit inputs (walk-entry lists, boolean flags, oracle functions), so every
definition is executable.  Regular-expression operations are embedded through a
small backtracking matcher (`runElems`) whose patterns transliterate the
regexes of the source one element at a time.
-/

namespace Zim2Md

/-! ## Character and list utilities -/

/-- ASCII decimal digit test: the class matched by the regex token for digits
on the ASCII strings handled here. -/
def isDigitC (c : Char) : Bool := '0' ≤ c && c ≤ '9'

/-- Numeric value of a decimal digit character. -/
def digitVal (c : Char) : Nat := c.toNat - '0'.toNat

/-- The decimal digit character for a value below ten (`str` of one digit). -/
def digitChar10 (n : Nat) : Char :=
  match n with
  | 0 => '0' | 1 => '1' | 2 => '2' | 3 => '3' | 4 => '4'
  | 5 => '5' | 6 => '6' | 7 => '7' | 8 => '8' | _ => '9'

/-- Little-endian decimal digits of a natural number. -/
def natToDigitsRev (n : Nat) : List Char :=
  if h : n < 10 then [digitChar10 n]
  else digitChar10 (n % 10) :: natToDigitsRev (n / 10)
decreasing_by exact Nat.div_lt_self (by omega) (by omega)

/-- Decimal representation of a natural number, as Python `str` produces it. -/
def natToDigits (n : Nat) : List Char := (natToDigitsRev n).reverse

/-- Value of a decimal digit string, as Python `int` parses it (leading zeros
allowed). -/
def digitsToNat (l : List Char) : Nat := l.foldl (fun a c => a * 10 + digitVal c) 0

/-- Index of the last occurrence of a character in a list (`str.rfind`). -/
def lastIdxOf (c : Char) (l : List Char) : Option Nat :=
  match l.reverse.findIdx? (fun d => d = c) with
  | some k => some (l.length - 1 - k)
  | none => none

/-! ## `os.path.splitext` (posix flavour, `genericpath._splitext`)

The extension starts at the last dot, provided that dot lies after the last
path separator and the characters between the separator and the dot are not
all dots (a basename made only of leading dots has no extension). -/

/-- `os.path.splitext` on a list of characters. -/
def splitextL (p : List Char) : List Char × List Char :=
  match lastIdxOf '.' p with
  | none => (p, [])
  | some di =>
    let si : Nat := match lastIdxOf '/' p with | none => 0 | some k => k + 1
    if si ≤ di ∧ ((p.drop si).take (di - si)).any (fun c => c ≠ '.') then
      (p.take di, p.drop di)
    else (p, [])

/-- `os.path.splitext` on strings. -/
def splitext (p : String) : String × String :=
  let r := splitextL p.data
  (String.mk r.1, String.mk r.2)

/-! ## The unique-name allocator (`make_unique_string`)

The loop body searches the current candidate with the regex
`(.*?)(\d+)(\..+)` (first match), and either increments the matched digit run
or, when there is no match, inserts a blank-one suffix before the
`os.path.splitext` extension. -/

/-- Attempt of the regex `(\d+)(\..+)` at the current position: the maximal
digit run at the head, immediately followed by a dot and at least one
non-newline character.  Returns the digit group and the extension group. -/
def matchAt (s : List Char) : Option (List Char × List Char) :=
  let d := s.takeWhile isDigitC
  match s.dropWhile isDigitC with
  | '.' :: r =>
    let t := r.takeWhile (fun c => c ≠ '\n')
    if d ≠ [] ∧ t ≠ [] then some (d, '.' :: t) else none
  | _ => none

/-- Leftmost position where `matchAt` succeeds, with the raw prefix (which may
still cross newlines; `findMatch` truncates it as the lazy dot of `(.*?)`
cannot cross a newline). -/
def findMatchAux : List Char → Option (List Char × List Char × List Char)
  | [] => none
  | c :: rest =>
    match matchAt (c :: rest) with
    | some (d, e) => some ([], d, e)
    | none => (findMatchAux rest).map (fun r => (c :: r.1, r.2.1, r.2.2))

/-- First match of `(.*?)(\d+)(\..+)`, returning the three groups, as
`re.findall(..)[0]` produces it. -/
def findMatch (s : List Char) : Option (List Char × List Char × List Char) :=
  (findMatchAux s).map (fun r => ((r.1.reverse.takeWhile (fun c => c ≠ '\n')).reverse, r.2.1, r.2.2))

/-- One iteration of the `make_unique_string` loop body on the current
candidate. -/
def nextCandidate (p : List Char) : List Char :=
  match findMatch p with
  | some (a, d, e) => a ++ natToDigits (digitsToNat d + 1) ++ e
  | none =>
    let fe := splitextL p
    fe.1 ++ [' ', '1'] ++ fe.2

/-- String-level loop step. -/
def nextS (p : String) : String := String.mk (nextCandidate p.data)

/-- The `while proposed_filename in existing_names` loop, with explicit fuel;
`none` means the fuel was exhausted before the loop exited.  One unit of fuel
corresponds to one membership test. -/
def msAuxO : Nat → List String → String → Option String
  | 0, _, _ => none
  | fuel + 1, existing, p =>
    if p ∈ existing then msAuxO fuel existing (nextS p) else some p

/-- `make_unique_string(existing_names, requested_name)`: the loop always exits
within `existing.length + 1` membership tests (proved below), so the default
is never used. -/
def make_unique_string (existing : List String) (requested : String) : String :=
  (msAuxO (existing.length + 1) existing requested).getD requested

/-! ## Basic list lemmas -/

theorem takeWhile_append_all {p : Char → Bool} {l1 l2 : List Char}
    (h : ∀ c ∈ l1, p c) : (l1 ++ l2).takeWhile p = l1 ++ l2.takeWhile p := by
  induction l1 with
  | nil => simp
  | cons a l ih =>
    simp only [List.cons_append, List.takeWhile_cons, h a (by simp)]
    simp [ih (fun c hc => h c (by simp [hc]))]

theorem dropWhile_append_all {p : Char → Bool} {l1 l2 : List Char}
    (h : ∀ c ∈ l1, p c) : (l1 ++ l2).dropWhile p = l2.dropWhile p := by
  induction l1 with
  | nil => simp
  | cons a l ih =>
    simp only [List.cons_append, List.dropWhile_cons, h a (by simp)]
    simp [ih (fun c hc => h c (by simp [hc]))]

theorem takeWhile_all_eq_self {p : Char → Bool} {l : List Char}
    (h : ∀ c ∈ l, p c) : l.takeWhile p = l := by
  have h3 : (l ++ ([] : List Char)).takeWhile p = l ++ ([] : List Char).takeWhile p :=
    takeWhile_append_all h
  simpa using h3

/-! ## Decimal digits round trip -/

theorem digitVal_digitChar10 {n : Nat} (h : n < 10) : digitVal (digitChar10 n) = n := by
  interval_cases n <;> decide

theorem isDigitC_digitChar10 (n : Nat) : isDigitC (digitChar10 n) = true := by
  unfold digitChar10
  split <;> decide

theorem natToDigits_all_digit (n : Nat) : ∀ c ∈ natToDigits n, isDigitC c = true := by
  intro c hc
  rw [natToDigits, List.mem_reverse] at hc
  induction n using Nat.strong_induction_on with
  | _ n ih =>
    rw [natToDigitsRev] at hc
    split at hc
    · simp at hc; subst hc; exact isDigitC_digitChar10 _
    · rcases List.mem_cons.1 hc with h | h
      · subst h; exact isDigitC_digitChar10 _
      · exact ih (n / 10) (Nat.div_lt_self (by omega) (by omega)) h

theorem natToDigits_ne_nil (n : Nat) : natToDigits n ≠ [] := by
  rw [natToDigits]
  intro h
  rw [List.reverse_eq_nil_iff, natToDigitsRev] at h
  split at h <;> simp at h

theorem digitsToNat_append_singleton (l : List Char) (c : Char) :
    digitsToNat (l ++ [c]) = digitsToNat l * 10 + digitVal c := by
  simp [digitsToNat, List.foldl_append]

theorem digitsToNat_natToDigits (n : Nat) : digitsToNat (natToDigits n) = n := by
  induction n using Nat.strong_induction_on with
  | _ n ih =>
    rw [natToDigits, natToDigitsRev]
    split
    · next h =>
      simp [digitsToNat, digitVal_digitChar10 h]
    · next h =>
      rw [List.reverse_cons, ← natToDigits, digitsToNat_append_singleton,
        ih (n / 10) (Nat.div_lt_self (by omega) (by omega)),
        digitVal_digitChar10 (Nat.mod_lt _ (by omega))]
      omega

/-! ## Structure of `matchAt` and `findMatch` -/

theorem isDigitC_dot : isDigitC '.' = false := by decide

theorem matchAt_nil : matchAt [] = none := by decide

/-- A digit run followed by a dot and a non-newline tail matches at the head. -/
theorem matchAt_digits {d r : List Char} (hd : d ≠ [])
    (hall : ∀ c ∈ d, isDigitC c = true)
    (hr : r.takeWhile (fun c => c ≠ '\n') ≠ []) :
    matchAt (d ++ '.' :: r) = some (d, '.' :: r.takeWhile (fun c => c ≠ '\n')) := by
  unfold matchAt
  rw [takeWhile_append_all hall, dropWhile_append_all hall]
  simp only [List.takeWhile_cons, List.dropWhile_cons, isDigitC_dot, Bool.false_eq_true,
    if_false, List.append_nil]
  rw [if_pos ⟨hd, hr⟩]

/-- If the head of the remainder is not a dot, `matchAt` fails however the
digit run went. -/
theorem matchAt_head_not_dot {s : List Char} {c : Char} {r : List Char}
    (hdw : s.dropWhile isDigitC = c :: r) (hc : c ≠ '.') : matchAt s = none := by
  unfold matchAt
  rw [hdw]
  split
  · next r2 heq =>
    exact absurd (List.head_eq_of_cons_eq heq) hc
  · rfl

/-- `matchAt` on a digit run, a dot and a tail, in conditional form. -/
theorem matchAt_digits_dot (ud w : List Char) (hall : ∀ c ∈ ud, isDigitC c = true) :
    matchAt (ud ++ '.' :: w) =
      if ud ≠ [] ∧ w.takeWhile (fun c => c ≠ '\n') ≠ []
      then some (ud, '.' :: w.takeWhile (fun c => c ≠ '\n')) else none := by
  unfold matchAt
  rw [takeWhile_append_all hall, dropWhile_append_all hall]
  simp only [List.takeWhile_cons, List.dropWhile_cons, isDigitC_dot, Bool.false_eq_true,
    if_false, List.append_nil]

theorem dropWhile_head_false {p : Char → Bool} {l : List Char} {c : Char} {r : List Char}
    (h : l.dropWhile p = c :: r) : p c = false := by
  induction l with
  | nil => simp at h
  | cons a t ih =>
    rw [List.dropWhile_cons] at h
    split at h
    · exact ih h
    · next hpa =>
      cases h
      simpa using hpa

theorem digit_ne_newline {c : Char} (h : isDigitC c = true) : c ≠ '\n' := by
  intro he
  subst he
  simp [isDigitC] at h

theorem takeWhile_cons_ne_nil_iff {c : Char} {s : List Char} :
    ((c :: s).takeWhile (fun x => x ≠ '\n') ≠ []) ↔ c ≠ '\n' := by
  by_cases h : c = '\n' <;> simp [List.takeWhile_cons, h]

/-- Failure of `matchAt` is preserved when the part of the string after a
block that is not digits-only is replaced, provided both tails start with a
non-newline character. -/
theorem matchAt_none_transfer {u z z' : List Char}
    (hu : ¬ ∀ c ∈ u, isDigitC c = true)
    (hz : ∃ c s, z = c :: s ∧ c ≠ '\n')
    (hz' : ∃ c s, z' = c :: s ∧ c ≠ '\n')
    (h : matchAt (u ++ z) = none) : matchAt (u ++ z') = none := by
  have hdw : u.dropWhile isDigitC ≠ [] := by
    intro hnil
    exact hu (List.dropWhile_eq_nil_iff.1 hnil)
  obtain ⟨c0, u2, hsplit⟩ : ∃ c0 u2, u.dropWhile isDigitC = c0 :: u2 := by
    cases hd : u.dropWhile isDigitC with
    | nil => exact absurd hd hdw
    | cons c0 u2 => exact ⟨c0, u2, rfl⟩
  have hu_eq : u = u.takeWhile isDigitC ++ (c0 :: u2) := by
    rw [← hsplit, List.takeWhile_append_dropWhile]
  have hud_all : ∀ c ∈ u.takeWhile isDigitC, isDigitC c = true :=
    fun c hc => List.mem_takeWhile_imp hc
  have hc0 : isDigitC c0 = false := dropWhile_head_false hsplit
  by_cases hdot : c0 = '.'
  · subst hdot
    rw [hu_eq, List.append_assoc, List.cons_append] at h ⊢
    rw [matchAt_digits_dot _ _ hud_all] at h
    rw [matchAt_digits_dot _ _ hud_all]
    have hcond_iff :
        (u.takeWhile isDigitC ≠ [] ∧ (u2 ++ z).takeWhile (fun c => c ≠ '\n') ≠ []) ↔
        (u.takeWhile isDigitC ≠ [] ∧ (u2 ++ z').takeWhile (fun c => c ≠ '\n') ≠ []) := by
      cases u2 with
      | nil =>
        obtain ⟨cz, sz, hzz, hcz⟩ := hz
        obtain ⟨cz', sz', hzz', hcz'⟩ := hz'
        rw [List.nil_append, List.nil_append, hzz, hzz']
        simp [takeWhile_cons_ne_nil_iff, hcz, hcz']
      | cons c2 u2t =>
        rw [List.cons_append, List.cons_append]
        simp [takeWhile_cons_ne_nil_iff]
    split at h
    · simp at h
    · next hcond =>
      rw [if_neg (fun hc => hcond (hcond_iff.2 hc))]
  · have hdw2 : (u ++ z').dropWhile isDigitC = c0 :: (u2 ++ z') := by
      conv_lhs => rw [hu_eq]
      rw [List.append_assoc, List.cons_append, dropWhile_append_all hud_all,
        List.dropWhile_cons]
      simp [hc0]
    exact matchAt_head_not_dot hdw2 hdot

theorem matchAt_some_structure {s : List Char} {d e : List Char}
    (h : matchAt s = some (d, e)) :
    d ≠ [] ∧ (∀ c ∈ d, isDigitC c = true) ∧
      ∃ r, s = d ++ '.' :: r ∧ e = '.' :: r.takeWhile (fun c => c ≠ '\n') ∧
        r.takeWhile (fun c => c ≠ '\n') ≠ [] := by
  unfold matchAt at h
  cases hdw : s.dropWhile isDigitC with
  | nil => rw [hdw] at h; simp at h
  | cons c0 r =>
    rw [hdw] at h
    by_cases hdot : c0 = '.'
    · subst hdot
      simp only at h
      split at h
      · next hcond =>
        obtain ⟨h1, h2⟩ := Prod.mk.injEq .. ▸ (Option.some.injEq .. ▸ h)
        subst h1; subst h2
        refine ⟨hcond.1, fun c hc => List.mem_takeWhile_imp hc, r, ?_, rfl, hcond.2⟩
        rw [← hdw, List.takeWhile_append_dropWhile]
      · simp at h
    · rw [show (match c0 :: r with
          | '.' :: r =>
            let t := r.takeWhile (fun c => c ≠ '\n')
            if s.takeWhile isDigitC ≠ [] ∧ t ≠ []
            then some (s.takeWhile isDigitC, '.' :: t) else none
          | _ => none) = none from ?_] at h
      · simp at h
      · split
        · next heq => exact absurd (List.head_eq_of_cons_eq heq) hdot
        · rfl

/-- Soundness of the scan: a `findMatchAux` result decomposes the input, with
no earlier position admitting a match. -/
theorem findMatchAux_some_structure {s a d e : List Char}
    (h : findMatchAux s = some (a, d, e)) :
    ∃ rest, s = a ++ rest ∧ matchAt rest = some (d, e) ∧
      ∀ k < a.length, matchAt (a.drop k ++ rest) = none := by
  induction s generalizing a with
  | nil => simp [findMatchAux] at h
  | cons c cs ih =>
    rw [findMatchAux] at h
    cases hm : matchAt (c :: cs) with
    | some pr =>
      obtain ⟨d0, e0⟩ := pr
      rw [hm] at h
      simp only [Option.some.injEq, Prod.mk.injEq] at h
      obtain ⟨ha, hd, he⟩ := h
      subst ha; subst hd; subst he
      exact ⟨c :: cs, rfl, hm, by simp⟩
    | none =>
      rw [hm] at h
      simp only [Option.map_eq_some'] at h
      obtain ⟨⟨a', d', e'⟩, haux, heq⟩ := h
      simp only [Prod.mk.injEq] at heq
      obtain ⟨ha, hd, he⟩ := heq
      subst hd; subst he
      obtain ⟨rest, hs, hmr, hnone⟩ := ih haux
      refine ⟨rest, by rw [← ha, List.cons_append, hs], hmr, ?_⟩
      intro k hk
      cases k with
      | zero =>
        rw [← ha]
        simpa [hs] using hm
      | succ j =>
        rw [← ha] at hk ⊢
        simpa using hnone j (by simpa using hk)

/-- Completeness of the scan: if a position matches and no earlier one does,
`findMatchAux` returns exactly that decomposition. -/
theorem findMatchAux_eq_of {a rest d e : List Char}
    (hm : matchAt rest = some (d, e))
    (hnone : ∀ k < a.length, matchAt (a.drop k ++ rest) = none) :
    findMatchAux (a ++ rest) = some (a, d, e) := by
  induction a with
  | nil =>
    cases rest with
    | nil => rw [matchAt_nil] at hm; cases hm
    | cons c cs =>
      rw [List.nil_append, findMatchAux, hm]
  | cons c a' ih =>
    have h0 : matchAt (c :: (a' ++ rest)) = none := by
      have := hnone 0 (by simp)
      simpa using this
    rw [List.cons_append, findMatchAux, h0]
    rw [ih (fun k hk => by simpa using hnone (k + 1) (by simpa using hk))]
    rfl

theorem trunc_eq_self {a : List Char} (h : ∀ c ∈ a, c ≠ '\n') :
    (a.reverse.takeWhile (fun c => c ≠ '\n')).reverse = a := by
  rw [takeWhile_all_eq_self (fun c hc => by
    simpa using h c (List.mem_reverse.1 hc)), List.reverse_reverse]

/-- The central stability lemma: if the digit-run regex matches with groups
`(a, d, e)`, then on the rebuilt string `a ++ d2 ++ e` it matches again with
groups `(a, d2, e)`, for any nonempty digit run `d2`. -/
theorem findMatch_stability {p a d e : List Char} (h : findMatch p = some (a, d, e))
    {d2 : List Char} (hd2 : d2 ≠ []) (hall2 : ∀ c ∈ d2, isDigitC c = true) :
    findMatch (a ++ d2 ++ e) = some (a, d2, e) := by
  rw [findMatch] at h
  simp only [Option.map_eq_some'] at h
  obtain ⟨⟨a0, d0, e0⟩, haux, heq⟩ := h
  simp only [Prod.mk.injEq] at heq
  obtain ⟨ha, hd, he⟩ := heq
  subst hd; subst he
  obtain ⟨rest, hs, hmr, hnone⟩ := findMatchAux_some_structure haux
  obtain ⟨hdne, hdall, r, hrest, he2, htne⟩ := matchAt_some_structure hmr
  -- the truncated prefix is a suffix of the raw prefix, free of newlines
  have ha_no_nl : ∀ c ∈ a, c ≠ '\n' := by
    intro c hc
    rw [← ha, List.mem_reverse] at hc
    simpa using List.mem_takeWhile_imp hc
  obtain ⟨pre, hpre⟩ : ∃ pre, a0 = pre ++ a := by
    refine ⟨(a0.reverse.dropWhile (fun c => c ≠ '\n')).reverse, ?_⟩
    rw [← ha, ← List.reverse_append, List.takeWhile_append_dropWhile, List.reverse_reverse]
  have hd2_head : ∃ c s, d2 ++ e0 = c :: s ∧ c ≠ '\n' := by
    cases d2 with
    | nil => exact absurd rfl hd2
    | cons cd sd =>
      exact ⟨cd, sd ++ e0, by simp, digit_ne_newline (hall2 cd (by simp))⟩
  have hd_head : ∃ c s, rest = c :: s ∧ c ≠ '\n' := by
    cases d0 with
    | nil => exact absurd rfl hdne
    | cons cd sd =>
      exact ⟨cd, sd ++ '.' :: r, by rw [hrest]; simp,
        digit_ne_newline (hdall cd (by simp))⟩
  have hidem : (r.takeWhile (fun c => c ≠ '\n')).takeWhile (fun c => c ≠ '\n')
      = r.takeWhile (fun c => c ≠ '\n') := by
    apply takeWhile_all_eq_self
    intro c hc
    have h2 := List.mem_takeWhile_imp hc
    exact h2
  have hmr2 : matchAt (d2 ++ e0) = some (d2, e0) := by
    rw [he2]
    have := matchAt_digits (d := d2) (r := r.takeWhile (fun c => c ≠ '\n')) hd2 hall2 (by
      rw [hidem]; exact htne)
    rwa [hidem] at this
  have hnone2 : ∀ k < a.length, matchAt (a.drop k ++ (d2 ++ e0)) = none := by
    intro k hk
    have hk0 : pre.length + k < a0.length := by
      rw [hpre, List.length_append]; omega
    have hdropped : a0.drop (pre.length + k) = a.drop k := by
      rw [hpre, List.drop_append]
    have hz : matchAt (a.drop k ++ rest) = none := by
      rw [← hdropped]; exact hnone _ hk0
    have hu_ne : a.drop k ≠ [] := by
      intro hnil
      have := congrArg List.length hnil
      simp at this
      omega
    by_cases hud : ∀ c ∈ a.drop k, isDigitC c = true
    · exfalso
      have : matchAt (a.drop k ++ rest) = some (a.drop k ++ d0, '.' :: r.takeWhile (fun c => c ≠ '\n')) := by
        rw [hrest, ← List.append_assoc]
        exact matchAt_digits (by simp [hu_ne])
          (fun c hc => (List.mem_append.1 hc).elim (hud c) (hdall c)) htne
      rw [this] at hz
      cases hz
    · exact matchAt_none_transfer hud hd_head hd2_head hz
  have haux2 : findMatchAux (a ++ (d2 ++ e0)) = some (a, d2, e0) :=
    findMatchAux_eq_of hmr2 hnone2
  rw [findMatch, List.append_assoc, haux2]
  simp only [Option.map_some']
  rw [trunc_eq_self ha_no_nl]

/-! ## Termination of the allocation loop -/

theorem splitextL_append (p : List Char) : (splitextL p).1 ++ (splitextL p).2 = p := by
  unfold splitextL
  split
  · simp
  all_goals dsimp only
  all_goals split
  all_goals simp

theorem matching_step {p a d e : List Char} (h : findMatch p = some (a, d, e)) :
    findMatch (nextCandidate p) = some (a, natToDigits (digitsToNat d + 1), e) := by
  rw [nextCandidate, h]
  exact findMatch_stability h (natToDigits_ne_nil _) (natToDigits_all_digit _)

theorem nomatch_step_len {p : List Char} (h : findMatch p = none) :
    (nextCandidate p).length = p.length + 2 := by
  rw [nextCandidate, h]
  have hc := congrArg List.length (splitextL_append p)
  simp only [List.length_append, List.length_cons, List.length_nil] at hc ⊢
  omega

/-- Along the iteration, a matching candidate keeps its prefix and extension
groups while the digit group counts up. -/
theorem value_iterate {p a d e : List Char} (h : findMatch p = some (a, d, e)) :
    ∀ m, ∃ dm, findMatch (nextCandidate^[m] p) = some (a, dm, e) ∧
      digitsToNat dm = digitsToNat d + m := by
  intro m
  induction m with
  | zero => exact ⟨d, by simpa using h, by simp⟩
  | succ k ih =>
    obtain ⟨dk, hk, hv⟩ := ih
    refine ⟨natToDigits (digitsToNat dk + 1), ?_, ?_⟩
    · rw [Function.iterate_succ_apply']
      exact matching_step hk
    · rw [digitsToNat_natToDigits]
      omega

theorem none_chain {p : List Char} {m : Nat}
    (h : findMatch (nextCandidate^[m] p) = none) :
    ∀ k ≤ m, findMatch (nextCandidate^[k] p) = none := by
  intro k hk
  by_contra hs
  obtain ⟨⟨a, d, e⟩, hsome⟩ : ∃ x, findMatch (nextCandidate^[k] p) = some x := by
    cases hx : findMatch (nextCandidate^[k] p) with
    | none => exact absurd hx hs
    | some x => exact ⟨x, rfl⟩
  obtain ⟨dm, hm, _⟩ := value_iterate hsome (m - k)
  rw [← Function.iterate_add_apply, Nat.sub_add_cancel hk] at hm
  rw [hm] at h
  cases h

theorem len_chain {p : List Char} {m : Nat}
    (h : findMatch (nextCandidate^[m] p) = none) :
    (nextCandidate^[m] p).length = p.length + 2 * m := by
  induction m with
  | zero => simp
  | succ k ih =>
    have hk : findMatch (nextCandidate^[k] p) = none :=
      none_chain h k (by omega)
    rw [Function.iterate_succ_apply', nomatch_step_len hk, ih hk]
    omega

/-- Candidates of the allocation loop never repeat. -/
theorem orbit_inj {p : List Char} {i j : Nat} (hij : i < j) :
    nextCandidate^[i] p ≠ nextCandidate^[j] p := by
  intro heq
  set q := nextCandidate^[i] p with hq
  have hj : nextCandidate^[j] p = nextCandidate^[j - i] q := by
    rw [hq, ← Function.iterate_add_apply]
    congr 1
    omega
  rw [hj] at heq
  cases hfm : findMatch q with
  | some x =>
    obtain ⟨a, d, e⟩ := x
    obtain ⟨dm, hm, hv⟩ := value_iterate hfm (j - i)
    rw [← heq, hfm] at hm
    have hd : d = dm := by
      simp only [Option.some.injEq, Prod.mk.injEq] at hm
      exact hm.2.1
    rw [← hd] at hv
    omega
  | none =>
    cases hfm2 : findMatch (nextCandidate^[j - i] q) with
    | some x =>
      rw [← heq, hfm] at hfm2
      cases hfm2
    | none =>
      have := len_chain hfm2
      rw [← heq] at this
      omega

theorem nextS_iterate_data (p : String) (k : Nat) :
    (nextS^[k] p).data = nextCandidate^[k] p.data := by
  induction k with
  | zero => rfl
  | succ m ih =>
    rw [Function.iterate_succ_apply', Function.iterate_succ_apply']
    simp [nextS, ih]

theorem orbit_inj_S {p : String} {i j : Nat} (hij : i < j) :
    nextS^[i] p ≠ nextS^[j] p := by
  intro heq
  apply orbit_inj (p := p.data) hij
  rw [← nextS_iterate_data, ← nextS_iterate_data, heq]

theorem msAuxO_none_mem {n : Nat} {E : List String} {p : String}
    (h : msAuxO n E p = none) : ∀ k < n, nextS^[k] p ∈ E := by
  induction n generalizing p with
  | zero => omega
  | succ m ih =>
    rw [msAuxO] at h
    split at h
    · next hmem =>
      intro k hk
      cases k with
      | zero => simpa using hmem
      | succ k2 =>
        rw [Function.iterate_succ_apply]
        exact ih h k2 (by omega)
    · cases h

theorem msAuxO_some_not_mem {n : Nat} {E : List String} {p s : String}
    (h : msAuxO n E p = some s) : s ∉ E := by
  induction n generalizing p with
  | zero => cases h
  | succ m ih =>
    rw [msAuxO] at h
    split at h
    · exact ih h
    · next hmem =>
      cases h
      exact hmem

/-- The allocation loop always succeeds within `E.length + 1` membership
tests: the candidates never repeat, and only `E.length` distinct strings can
be members of `E`. -/
theorem msAuxO_isSome (E : List String) (r : String) :
    (msAuxO (E.length + 1) E r).isSome = true := by
  cases hx : msAuxO (E.length + 1) E r with
  | some s => rfl
  | none =>
    exfalso
    have hmem := msAuxO_none_mem hx
    have hinj : Set.InjOn (fun k => nextS^[k] r) (Finset.range (E.length + 1)) := by
      intro i _ j _ hij2
      by_contra hne
      rcases Nat.lt_or_ge i j with hlt | hge
      · exact orbit_inj_S hlt hij2
      · exact orbit_inj_S (show j < i by omega) hij2.symm
    have hmaps : ∀ k ∈ Finset.range (E.length + 1), nextS^[k] r ∈ E.toFinset := by
      intro k hk
      rw [List.mem_toFinset]
      exact hmem k (Finset.mem_range.1 hk)
    have hcard := Finset.card_le_card_of_injOn _ hmaps hinj
    rw [Finset.card_range] at hcard
    have hfin := E.toFinset_card_le
    omega

/-- C1: for every finite set of existing destination names and every requested
name, `make_unique_string` returns a name that is not a member of the
existing names; and whenever the requested name is not already a member it is
returned unchanged. -/
theorem make_unique_string_spec (E : List String) (r : String) :
    make_unique_string E r ∉ E ∧ (r ∉ E → make_unique_string E r = r) := by
  constructor
  · cases hx : msAuxO (E.length + 1) E r with
    | none =>
      have := msAuxO_isSome E r
      rw [hx] at this
      cases this
    | some s =>
      rw [make_unique_string, hx]
      simpa using msAuxO_some_not_mem hx
  · intro hr
    rw [make_unique_string, msAuxO, if_neg hr]
    rfl

/-- Witness for C1 at concrete inputs. -/
theorem make_unique_string_spec_witness :
    make_unique_string ["img.png"] "img.png" ∉ ["img.png"] ∧
      "b.png" ∉ ["a.png"] ∧ make_unique_string ["a.png"] "b.png" = "b.png" :=
  ⟨(make_unique_string_spec ["img.png"] "img.png").1, by decide,
    (make_unique_string_spec ["a.png"] "b.png").2 (by decide)⟩

/-- C2: the allocation loop of `make_unique_string` terminates within
`E.length + 1` iterations (membership tests), because the candidate sequence
never repeats. -/
theorem make_unique_loop_terminates (E : List String) (r : String) :
    (msAuxO (E.length + 1) E r).isSome = true ∧
      ∀ i j : Nat, i < j → nextS^[i] r ≠ nextS^[j] r :=
  ⟨msAuxO_isSome E r, fun _ _ h => orbit_inj_S h⟩

/-- Witness for C2 at concrete inputs. -/
theorem make_unique_loop_terminates_witness :
    (msAuxO (["img.png"].length + 1) ["img.png"] "img.png").isSome = true ∧
      nextS^[0] "img.png" ≠ nextS^[1] "img.png" :=
  ⟨(make_unique_loop_terminates ["img.png"] "img.png").1,
    (make_unique_loop_terminates ["img.png"] "img.png").2 0 1 (by decide)⟩

/-! ## The path mapper (`map_zim_dir_to_obsidian_dir`)

The `os.walk` traversal is an external effect: it is passed in as a list of
walk entries (directory, its folder names, its file names), in traversal
order.  The result of the page-signature check `compatible(path)` reads file
contents, so it too is an input: each file name carries the boolean that the
check returned.  Paths are modelled as strings joined canonically with `/`;
`pathlib` path equality coincides with string equality on them.  The three
Python dicts are modelled as append-only journals: a lookup returns the value
of the last binding of a key, exactly as an overwriting dict does. -/

/-- `Path.joinpath` with a single (possibly empty) component. -/
def joinPath (a b : String) : String := if b = "" then a else a ++ "/" ++ b

/-- Lookup in a journal dict: the last binding wins, as in a Python dict. -/
def dlookup (m : List (String × String)) (k : String) : Option String :=
  (m.reverse.find? (fun e => e.1 = k)).map (fun e => e.2)

/-- Split a path into the part up to and including the last separator, and
the final component (`pathlib` name). -/
def basenameSplitL : List Char → List Char × List Char
  | [] => ([], [])
  | c :: rest =>
    if '/' ∈ rest then
      (c :: (basenameSplitL rest).1, (basenameSplitL rest).2)
    else if c = '/' then (['/'], rest)
    else ([], c :: rest)

/-- Index of the suffix dot of a `pathlib` name: its last dot, provided it is
neither the first nor the last character of the name. -/
def pathSuffixIdx (b : List Char) : Option Nat :=
  match lastIdxOf '.' b with
  | some i => if 0 < i ∧ i + 1 < b.length then some i else none
  | none => none

/-- `PurePath.with_suffix`: replace (or append, or with `""` remove) the
suffix of the final component. -/
def withSuffixL (p : List Char) (ext : List Char) : List Char :=
  let db := basenameSplitL p
  let stem := match pathSuffixIdx db.2 with
    | some i => db.2.take i
    | none => db.2
  db.1 ++ stem ++ ext

/-- `PurePath.with_suffix` on strings. -/
def withSuffix (p : String) (ext : String) : String :=
  String.mk (withSuffixL p.data ext.data)

/-- One directory visited by `os.walk`: its path relative to the source root
(`""` at the root), its folder names, and its file names, each paired with
the result of the page-signature check on its content. -/
structure WalkEntry where
  relroot : String
  folders : List String
  files : List (String × Bool)

/-- The keyword arguments of `map_zim_dir_to_obsidian_dir`. -/
structure MapCfg where
  zim_dir : String
  obs_dir : String
  ignore_extensions : List String
  use_folder_notes : Bool
  use_global_attachments : Bool
  global_attachments_relative_path : String

/-- The three mappings being built. -/
structure MapState where
  folder_map : List (String × String)
  note_map : List (String × String)
  file_map : List (String × String)

/-- The folder loop body: record the folder with its mirrored destination. -/
def processFolder (cfg : MapCfg) (relroot : String) (st : MapState)
    (folder : String) : MapState :=
  { st with folder_map := st.folder_map ++
      [(joinPath (joinPath cfg.zim_dir relroot) folder,
        joinPath (joinPath cfg.obs_dir relroot) folder)] }

/-- The file loop body: classify as page (signature-checked `.txt`), ignored
extension, or attachment (globally flattened with collision renaming, or
mirrored). -/
def processFile (cfg : MapCfg) (relroot : String) (st : MapState)
    (f : String × Bool) : MapState :=
  let file := f.1
  let old := joinPath (joinPath cfg.zim_dir relroot) file
  if (splitext file).2 = ".txt" ∧ f.2 = true then
    let potential := joinPath (joinPath cfg.obs_dir relroot) (splitext file).1
    let base :=
      if cfg.use_folder_notes = true ∧ potential ∈ st.folder_map.map Prod.snd then
        joinPath potential file
      else joinPath (joinPath cfg.obs_dir relroot) file
    { st with note_map := st.note_map ++ [(old, withSuffix base ".md")] }
  else if (splitext file).2 ∈ cfg.ignore_extensions then st
  else if cfg.use_global_attachments = true then
    let proposed := joinPath (joinPath cfg.obs_dir cfg.global_attachments_relative_path) file
    { st with file_map := st.file_map ++
        [(old, make_unique_string (st.file_map.map Prod.snd) proposed)] }
  else
    { st with file_map := st.file_map ++
        [(old, joinPath (joinPath cfg.obs_dir relroot) file)] }

/-- One `os.walk` entry: folders are recorded first, then files. -/
def processEntry (cfg : MapCfg) (st : MapState) (e : WalkEntry) : MapState :=
  e.files.foldl (processFile cfg e.relroot)
    (e.folders.foldl (processFolder cfg e.relroot) st)

/-- `map_zim_dir_to_obsidian_dir` over a walk given in traversal order. -/
def map_zim_dir_to_obsidian_dir (cfg : MapCfg) (walk : List WalkEntry) : MapState :=
  walk.foldl (processEntry cfg) ⟨[], [], []⟩

/-! ## Journal-dict and path lemmas -/

theorem strEq_of_data {a b : String} (h : a.data = b.data) : a = b := by
  cases a
  cases b
  exact congrArg String.mk h

theorem str_data_append (a b : String) : (a ++ b).data = a.data ++ b.data := rfl

theorem strApp_cancel_left {a b c : String} (h : a ++ b = a ++ c) : b = c := by
  apply strEq_of_data
  have h2 := congrArg String.data h
  rw [str_data_append, str_data_append] at h2
  exact List.append_cancel_left h2

theorem dlookup_snoc_self (m : List (String × String)) (k v : String) :
    dlookup (m ++ [(k, v)]) k = some v := by
  unfold dlookup
  rw [List.reverse_append]
  simp [List.find?_cons]

theorem dlookup_append_no_key {m1 m2 : List (String × String)} {k : String}
    (h : ∀ kv ∈ m2, kv.1 ≠ k) : dlookup (m1 ++ m2) k = dlookup m1 k := by
  unfold dlookup
  rw [List.reverse_append, List.find?_append]
  have hnone : m2.reverse.find? (fun e => e.1 = k) = none := by
    rw [List.find?_eq_none]
    intro x hx
    simp [h x (List.mem_reverse.1 hx)]
  rw [hnone]
  rfl

/-- If every binding of key `k` in a journal carries value `v`, and some
binding of `k` exists, the lookup gives `v`. -/
theorem dlookup_const_val {m : List (String × String)} {k v : String}
    (hex : ∃ kv ∈ m, kv.1 = k)
    (hval : ∀ kv ∈ m, kv.1 = k → kv.2 = v) :
    dlookup m k = some v := by
  induction m using List.reverseRecOn with
  | nil => simp at hex
  | append_singleton m2 kv ih =>
    by_cases hk : kv.1 = k
    · have hv := hval kv (by simp) hk
      obtain ⟨k0, v0⟩ := kv
      simp only at hk hv
      subst hk
      subst hv
      exact dlookup_snoc_self m2 k0 v0
    · rw [dlookup_append_no_key (by simpa using hk)]
      apply ih
      · obtain ⟨kv2, hm, hkk⟩ := hex
        rcases List.mem_append.1 hm with h2 | h2
        · exact ⟨kv2, h2, hkk⟩
        · simp at h2
          subst h2
          exact absurd hkk hk
      · intro kv2 hm hkk
        exact hval kv2 (List.mem_append_left _ hm) hkk

/-- The relative suffix a walk entry contributes under the source root. -/
def relSuffix (rel g : String) : String := if rel = "" then g else rel ++ "/" ++ g

theorem joinPath_shape (root rel g : String) (hg : g ≠ "") :
    joinPath (joinPath root rel) g = root ++ "/" ++ relSuffix rel g := by
  unfold joinPath relSuffix
  by_cases hrel : rel = ""
  · simp [hrel, hg]
  · simp only [hrel, if_false, hg]
    apply strEq_of_data
    simp [str_data_append, List.append_assoc]

theorem joinPath_ne_empty_eq (a b : String) (hb : b ≠ "") :
    joinPath a b = a ++ "/" ++ b := by
  simp [joinPath, hb]

/-! ## Shape of the mapper folds -/

/-- The folder bindings contributed by one walk entry. -/
def folderBindings (cfg : MapCfg) (e : WalkEntry) : List (String × String) :=
  e.folders.map (fun g => (joinPath (joinPath cfg.zim_dir e.relroot) g,
    joinPath (joinPath cfg.obs_dir e.relroot) g))

/-- The folder bindings contributed by a walk. -/
def walkFolderBindings (cfg : MapCfg) : List WalkEntry → List (String × String)
  | [] => []
  | e :: es => folderBindings cfg e ++ walkFolderBindings cfg es

/-- The note binding a file contributes, given the folder destinations known
when it is processed. -/
def noteBinding (cfg : MapCfg) (rel : String) (fvals : List String)
    (f : String × Bool) : Option (String × String) :=
  if (splitext f.1).2 = ".txt" ∧ f.2 = true then
    let potential := joinPath (joinPath cfg.obs_dir rel) (splitext f.1).1
    let base :=
      if cfg.use_folder_notes = true ∧ potential ∈ fvals then
        joinPath potential f.1
      else joinPath (joinPath cfg.obs_dir rel) f.1
    some (joinPath (joinPath cfg.zim_dir rel) f.1, withSuffix base ".md")
  else none

theorem processFile_folder_map (cfg : MapCfg) (rel : String) (st : MapState)
    (f : String × Bool) : (processFile cfg rel st f).folder_map = st.folder_map := by
  unfold processFile
  dsimp only
  by_cases h1 : (splitext f.1).2 = ".txt" ∧ f.2 = true
  · simp only [if_pos h1]
  · simp only [if_neg h1]
    by_cases h2 : (splitext f.1).2 ∈ cfg.ignore_extensions
    · simp only [if_pos h2]
    · simp only [if_neg h2]
      by_cases h3 : cfg.use_global_attachments = true
      · simp only [if_pos h3]
      · simp only [if_neg h3]

theorem processFile_note_map (cfg : MapCfg) (rel : String) (st : MapState)
    (f : String × Bool) :
    (processFile cfg rel st f).note_map = st.note_map ++
      (noteBinding cfg rel (st.folder_map.map Prod.snd) f).toList := by
  unfold processFile noteBinding
  dsimp only
  by_cases h1 : (splitext f.1).2 = ".txt" ∧ f.2 = true
  · simp only [if_pos h1, Option.toList_some]
  · simp only [if_neg h1, Option.toList_none, List.append_nil]
    by_cases h2 : (splitext f.1).2 ∈ cfg.ignore_extensions
    · simp only [if_pos h2]
    · simp only [if_neg h2]
      by_cases h3 : cfg.use_global_attachments = true
      · simp only [if_pos h3]
      · simp only [if_neg h3]

theorem processFolder_note_map (cfg : MapCfg) (rel : String) (st : MapState)
    (g : String) : (processFolder cfg rel st g).note_map = st.note_map := rfl

theorem folderFold_folder_map (cfg : MapCfg) (rel : String) (gs : List String)
    (st : MapState) :
    (gs.foldl (processFolder cfg rel) st).folder_map = st.folder_map ++
      gs.map (fun g => (joinPath (joinPath cfg.zim_dir rel) g,
        joinPath (joinPath cfg.obs_dir rel) g)) := by
  induction gs generalizing st with
  | nil => simp
  | cons g gs ih =>
    rw [List.foldl_cons, ih, List.map_cons]
    show st.folder_map ++ [_] ++ _ = _
    rw [List.append_assoc]
    rfl

theorem folderFold_note_map (cfg : MapCfg) (rel : String) (gs : List String)
    (st : MapState) :
    (gs.foldl (processFolder cfg rel) st).note_map = st.note_map := by
  induction gs generalizing st with
  | nil => rfl
  | cons g gs ih => rw [List.foldl_cons, ih]; rfl

theorem folderFold_file_map (cfg : MapCfg) (rel : String) (gs : List String)
    (st : MapState) :
    (gs.foldl (processFolder cfg rel) st).file_map = st.file_map := by
  induction gs generalizing st with
  | nil => rfl
  | cons g gs ih => rw [List.foldl_cons, ih]; rfl

theorem filesFold_folder_map (cfg : MapCfg) (rel : String)
    (files : List (String × Bool)) (st : MapState) :
    (files.foldl (processFile cfg rel) st).folder_map = st.folder_map := by
  induction files generalizing st with
  | nil => rfl
  | cons f fs ih => rw [List.foldl_cons, ih, processFile_folder_map]

/-- The note journal grows by exactly the note bindings of the files, all
computed against the folder destinations frozen at the start of the file
loop (the file loop never touches the folder journal). -/
theorem filesFold_note_map (cfg : MapCfg) (rel : String)
    (files : List (String × Bool)) (st : MapState) :
    (files.foldl (processFile cfg rel) st).note_map = st.note_map ++
      files.filterMap (noteBinding cfg rel (st.folder_map.map Prod.snd)) := by
  induction files generalizing st with
  | nil => simp
  | cons f fs ih =>
    rw [List.foldl_cons, ih, processFile_folder_map, processFile_note_map,
      List.filterMap_cons]
    cases hb : noteBinding cfg rel (st.folder_map.map Prod.snd) f with
    | none => simp
    | some b => simp

theorem processEntry_folder_map (cfg : MapCfg) (st : MapState) (e : WalkEntry) :
    (processEntry cfg st e).folder_map = st.folder_map ++ folderBindings cfg e := by
  rw [processEntry, filesFold_folder_map, folderFold_folder_map]
  rfl

theorem entriesFold_folder_map (cfg : MapCfg) (es : List WalkEntry) (st : MapState) :
    (es.foldl (processEntry cfg) st).folder_map
      = st.folder_map ++ walkFolderBindings cfg es := by
  induction es generalizing st with
  | nil => simp [walkFolderBindings]
  | cons e es ih =>
    rw [List.foldl_cons, ih, processEntry_folder_map, walkFolderBindings,
      List.append_assoc]

/-- Keys appended to the note journal by later walk entries all come from
their own files. -/
theorem entriesFold_note_keys (cfg : MapCfg) (es : List WalkEntry) (st : MapState) :
    ∃ dl, (es.foldl (processEntry cfg) st).note_map = st.note_map ++ dl ∧
      ∀ kv ∈ dl, ∃ e ∈ es, ∃ f ∈ e.files,
        kv.1 = joinPath (joinPath cfg.zim_dir e.relroot) f.1 := by
  induction es generalizing st with
  | nil => exact ⟨[], by simp, by simp⟩
  | cons e es ih =>
    obtain ⟨dl, hdl, hkeys⟩ := ih (processEntry cfg st e)
    have hnote : (processEntry cfg st e).note_map = st.note_map ++
        e.files.filterMap (noteBinding cfg e.relroot
          ((e.folders.foldl (processFolder cfg e.relroot) st).folder_map.map Prod.snd)) := by
      rw [processEntry, filesFold_note_map, folderFold_note_map]
    refine ⟨e.files.filterMap (noteBinding cfg e.relroot
      ((e.folders.foldl (processFolder cfg e.relroot) st).folder_map.map Prod.snd)) ++ dl,
      ?_, ?_⟩
    · rw [List.foldl_cons, hdl, hnote, List.append_assoc]
    · intro kv hkv
      rcases List.mem_append.1 hkv with h2 | h2
      · obtain ⟨f, hf, hb⟩ := List.mem_filterMap.1 h2
        refine ⟨e, by simp, f, hf, ?_⟩
        unfold noteBinding at hb
        split at hb
        · cases hb
          rfl
        · cases hb
      · obtain ⟨e2, he2, f, hf, hk⟩ := hkeys kv h2
        exact ⟨e2, by simp [he2], f, hf, hk⟩

/-! ## Computation lemmas for `with_suffix` -/

theorem findIdx?_append_left_none {p : Char → Bool} {l1 l2 : List Char}
    (h : ∀ c ∈ l1, p c = false) :
    (l1 ++ l2).findIdx? p = (l2.findIdx? p).map (fun i => i + l1.length) := by
  induction l1 with
  | nil => simp
  | cons c t ih =>
    rw [List.cons_append, List.findIdx?_cons, if_neg (by simp [h c (by simp)]),
      List.findIdx?_succ, ih (fun d hd => h d (by simp [hd]))]
    cases h2 : l2.findIdx? p with
    | none => simp
    | some i => simp [Nat.add_assoc]

theorem findIdx?_cons_self {p : Char → Bool} {c : Char} {l : List Char}
    (h : p c = true) : (c :: l).findIdx? p = some 0 := by
  rw [List.findIdx?_cons, if_pos h]

theorem lastIdxOf_last_dot {s t : List Char} (ht : ∀ c ∈ t, ¬ c = '.') :
    lastIdxOf '.' (s ++ '.' :: t) = some s.length := by
  unfold lastIdxOf
  have hrev : (s ++ '.' :: t).reverse = t.reverse ++ '.' :: s.reverse := by
    rw [List.reverse_append, List.reverse_cons, List.append_assoc]
    rfl
  rw [hrev, findIdx?_append_left_none (fun c hc => by
      simpa using ht c (List.mem_reverse.1 hc)),
    findIdx?_cons_self (by simp)]
  simp only [Option.map_some']
  simp only [List.length_append, List.length_cons, List.length_reverse]
  congr 1
  omega

theorem basenameSplitL_append {D b : List Char} (hb : ∀ c ∈ b, ¬ c = '/') :
    basenameSplitL (D ++ '/' :: b) = (D ++ ['/'], b) := by
  induction D with
  | nil =>
    rw [List.nil_append, basenameSplitL]
    rw [if_neg (fun hmem => hb _ hmem rfl), if_pos rfl]
    simp
  | cons c D2 ih =>
    rw [List.cons_append, basenameSplitL,
      if_pos (by simp), ih]
    simp

theorem withSuffix_dir_stem (D stem r ext2 : String)
    (hst : stem.data ≠ []) (hsl : ∀ c ∈ stem.data, ¬ c = '/')
    (hrd : ∀ c ∈ r.data, ¬ c = '.' ∧ ¬ c = '/') (hrne : r.data ≠ []) :
    withSuffix (D ++ "/" ++ (stem ++ "." ++ r)) ext2 = D ++ "/" ++ (stem ++ ext2) := by
  apply strEq_of_data
  show withSuffixL (D ++ "/" ++ (stem ++ "." ++ r)).data ext2.data
      = (D ++ "/" ++ (stem ++ ext2)).data
  have hdata : (D ++ "/" ++ (stem ++ "." ++ r)).data
      = D.data ++ '/' :: (stem.data ++ '.' :: r.data) := by
    simp [str_data_append]
  rw [hdata]
  unfold withSuffixL
  rw [basenameSplitL_append (by
    intro c hc
    rcases List.mem_append.1 hc with h2 | h2
    · exact hsl c h2
    · rcases List.mem_cons.1 h2 with h3 | h3
      · rw [h3]; decide
      · exact (hrd c h3).2)]
  dsimp only
  unfold pathSuffixIdx
  rw [lastIdxOf_last_dot (fun c hc => (hrd c hc).1)]
  have hcond : 0 < stem.data.length ∧ stem.data.length + 1
      < (stem.data ++ '.' :: r.data).length := by
    constructor
    · cases hl : stem.data with
      | nil => exact absurd hl hst
      | cons a b => simp [hl]
    · simp only [List.length_append, List.length_cons]
      cases hl : r.data with
      | nil => exact absurd hl hrne
      | cons a b => simp [hl]
  dsimp only
  rw [if_pos hcond]
  simp only [List.take_left]
  simp [str_data_append, List.append_assoc]

/-! ## Shape and membership of the folder bindings -/

theorem mem_walkFolderBindings {cfg : MapCfg} {es : List WalkEntry} {e : WalkEntry}
    (he : e ∈ es) {kv : String × String} (hkv : kv ∈ folderBindings cfg e) :
    kv ∈ walkFolderBindings cfg es := by
  induction es with
  | nil => simp at he
  | cons e2 es ih =>
    rw [walkFolderBindings]
    rcases List.mem_cons.1 he with h2 | h2
    · subst h2
      exact List.mem_append_left _ hkv
    · exact List.mem_append_right _ (ih h2)

theorem walkFolderBindings_shape {cfg : MapCfg} {es : List WalkEntry}
    (hne : ∀ e ∈ es, ∀ g ∈ e.folders, g ≠ "") :
    ∀ kv ∈ walkFolderBindings cfg es, ∃ S : String,
      kv.1 = cfg.zim_dir ++ "/" ++ S ∧ kv.2 = cfg.obs_dir ++ "/" ++ S := by
  induction es with
  | nil => simp [walkFolderBindings]
  | cons e es ih =>
    intro kv hkv
    rw [walkFolderBindings] at hkv
    rcases List.mem_append.1 hkv with h2 | h2
    · obtain ⟨g, hg, hkv2⟩ := List.mem_map.1 h2
      subst hkv2
      refine ⟨relSuffix e.relroot g, ?_, ?_⟩
      · exact joinPath_shape _ _ _ (hne e (by simp) g hg)
      · exact joinPath_shape _ _ _ (hne e (by simp) g hg)
    · exact ih (fun e2 he2 => hne e2 (by simp [he2])) kv h2

theorem filterMap_noteBinding_keys (cfg : MapCfg) (rel : String)
    (fvals : List String) (fs : List (String × Bool)) :
    ∀ kv ∈ fs.filterMap (noteBinding cfg rel fvals), ∃ f ∈ fs,
      kv.1 = joinPath (joinPath cfg.zim_dir rel) f.1 := by
  intro kv hkv
  obtain ⟨f, hf, hb⟩ := List.mem_filterMap.1 hkv
  refine ⟨f, hf, ?_⟩
  unfold noteBinding at hb
  split at hb
  · cases hb
    rfl
  · cases hb

/-- C4: under folder-note mode, a page whose base name and relative location
match a recorded folder is nested inside that folder: its destination in the
note mapping equals the folder destination of the folder, extended by a
separator, the leaf name and the markdown extension. -/
theorem folder_note_nesting
    (cfg : MapCfg) (pre post : List WalkEntry) (e : WalkEntry)
    (fs1 fs2 : List (String × Bool)) (stem : String)
    (hfn : cfg.use_folder_notes = true)
    (hstem_mem : stem ∈ e.folders)
    (hfiles : e.files = fs1 ++ ((stem ++ ".txt"), true) :: fs2)
    (hstem_ne : stem.data ≠ [])
    (hstem_slash : ∀ c ∈ stem.data, ¬ c = '/')
    (hsx : splitext (stem ++ ".txt") = (stem, ".txt"))
    (hfolders_ne : ∀ e2 ∈ pre ++ e :: post, ∀ g ∈ e2.folders, g ≠ "")
    (hfs2 : ∀ f ∈ fs2, joinPath (joinPath cfg.zim_dir e.relroot) f.1
      ≠ joinPath (joinPath cfg.zim_dir e.relroot) (stem ++ ".txt"))
    (hpost : ∀ e2 ∈ post, ∀ f ∈ e2.files,
      joinPath (joinPath cfg.zim_dir e2.relroot) f.1
        ≠ joinPath (joinPath cfg.zim_dir e.relroot) (stem ++ ".txt")) :
    ∃ fd, dlookup (map_zim_dir_to_obsidian_dir cfg (pre ++ e :: post)).folder_map
        (joinPath (joinPath cfg.zim_dir e.relroot) stem) = some fd ∧
      dlookup (map_zim_dir_to_obsidian_dir cfg (pre ++ e :: post)).note_map
        (joinPath (joinPath cfg.zim_dir e.relroot) (stem ++ ".txt"))
        = some (fd ++ "/" ++ (stem ++ ".md")) := by
  have hstem_ne2 : stem ≠ "" := by
    intro h
    apply hstem_ne
    rw [h]
  set F := joinPath (joinPath cfg.zim_dir e.relroot) stem with hF
  set FD := joinPath (joinPath cfg.obs_dir e.relroot) stem with hFD
  set P := joinPath (joinPath cfg.zim_dir e.relroot) (stem ++ ".txt")
  refine ⟨FD, ?_, ?_⟩
  · -- folder lookup
    rw [map_zim_dir_to_obsidian_dir, entriesFold_folder_map]
    show dlookup ([] ++ walkFolderBindings cfg (pre ++ e :: post)) F = some FD
    rw [List.nil_append]
    apply dlookup_const_val
    · refine ⟨(F, FD), ?_, rfl⟩
      apply mem_walkFolderBindings (e := e) (by simp)
      unfold folderBindings
      exact List.mem_map.2 ⟨stem, hstem_mem, rfl⟩
    · intro kv hkv hk
      obtain ⟨S, hk1, hk2⟩ := walkFolderBindings_shape hfolders_ne kv hkv
      have hFS : F = cfg.zim_dir ++ "/" ++ relSuffix e.relroot stem :=
        joinPath_shape _ _ _ hstem_ne2
      have hSS : S = relSuffix e.relroot stem := by
        apply strApp_cancel_left (a := cfg.zim_dir ++ "/")
        rw [String.append_assoc, ← String.append_assoc cfg.zim_dir, ← hk1, ← hFS, hk]
      rw [hk2, hSS, hFD, joinPath_shape _ _ _ hstem_ne2]
  · -- note lookup
    rw [map_zim_dir_to_obsidian_dir, List.foldl_append, List.foldl_cons]
    obtain ⟨dl, hdl, hkeys⟩ := entriesFold_note_keys cfg post
      (processEntry cfg (pre.foldl (processEntry cfg) ⟨[], [], []⟩) e)
    rw [hdl, dlookup_append_no_key (by
      intro kv hkv
      obtain ⟨e2, he2, f, hf, hk⟩ := hkeys kv hkv
      rw [hk]
      exact hpost e2 he2 f hf)]
    set st0 := pre.foldl (processEntry cfg) (⟨[], [], []⟩ : MapState) with hst0
    rw [processEntry, filesFold_note_map, folderFold_note_map]
    set fvals := ((e.folders.foldl (processFolder cfg e.relroot) st0).folder_map.map
      Prod.snd) with hfvals
    have hmem_fd : FD ∈ fvals := by
      rw [hfvals, folderFold_folder_map, List.map_append]
      apply List.mem_append_right
      apply List.mem_map.2
      refine ⟨(F, FD), ?_, rfl⟩
      exact List.mem_map.2 ⟨stem, hstem_mem, rfl⟩
    have hnb : noteBinding cfg e.relroot fvals (stem ++ ".txt", true)
        = some (P, FD ++ "/" ++ (stem ++ ".md")) := by
      unfold noteBinding
      rw [if_pos (by
        constructor
        · show (splitext (stem ++ ".txt")).2 = ".txt"
          rw [hsx]
        · rfl)]
      dsimp only
      rw [show (splitext (stem ++ ".txt")).1 = stem by rw [hsx]]
      rw [if_pos ⟨hfn, hmem_fd⟩]
      have hjoin : joinPath FD (stem ++ ".txt") = FD ++ "/" ++ (stem ++ ".txt") := by
        apply joinPath_ne_empty_eq
        intro h
        have h2 := congrArg String.data h
        rw [str_data_append] at h2
        simp at h2
      rw [hjoin]
      have hassoc : FD ++ "/" ++ (stem ++ ".txt") = FD ++ "/" ++ (stem ++ "." ++ "txt") := by
        apply strEq_of_data
        simp [str_data_append]
      rw [hassoc, withSuffix_dir_stem FD stem "txt" ".md" hstem_ne hstem_slash
        (by intro c hc; fin_cases hc <;> exact ⟨by decide, by decide⟩) (by decide)]
    rw [hfiles, List.filterMap_append, List.filterMap_cons, hnb]
    rw [show st0.note_map ++ (fs1.filterMap (noteBinding cfg e.relroot fvals) ++
        ((P, FD ++ "/" ++ (stem ++ ".md")) :: fs2.filterMap (noteBinding cfg e.relroot fvals)))
      = (st0.note_map ++ fs1.filterMap (noteBinding cfg e.relroot fvals) ++
          [(P, FD ++ "/" ++ (stem ++ ".md"))]) ++ fs2.filterMap (noteBinding cfg e.relroot fvals) by
      simp [List.append_assoc]]
    rw [dlookup_append_no_key (by
      intro kv hkv
      obtain ⟨f, hf, hk⟩ := filterMap_noteBinding_keys cfg e.relroot fvals fs2 kv hkv
      rw [hk]
      exact hfs2 f hf)]
    exact dlookup_snoc_self _ _ _

/-- Witness for C4 at a concrete walk (the scenario of the source test). -/
theorem folder_note_nesting_witness :
    ∃ fd, dlookup (map_zim_dir_to_obsidian_dir
        ⟨"Z", "O", [".ini"], true, true, "attachments"⟩
        ([] ++ (⟨"", ["Bumblebee"], [("Bumblebee.txt", true)]⟩ : WalkEntry) :: [])).folder_map
        (joinPath (joinPath "Z" "") "Bumblebee") = some fd ∧
      dlookup (map_zim_dir_to_obsidian_dir
        ⟨"Z", "O", [".ini"], true, true, "attachments"⟩
        ([] ++ (⟨"", ["Bumblebee"], [("Bumblebee.txt", true)]⟩ : WalkEntry) :: [])).note_map
        (joinPath (joinPath "Z" "") ("Bumblebee" ++ ".txt"))
        = some (fd ++ "/" ++ ("Bumblebee" ++ ".md")) :=
  folder_note_nesting ⟨"Z", "O", [".ini"], true, true, "attachments"⟩ [] []
    ⟨"", ["Bumblebee"], [("Bumblebee.txt", true)]⟩ [] [] "Bumblebee"
    rfl (by decide) rfl (by decide) (by decide) (by decide)
    (by decide) (by decide) (by decide)

theorem make_unique_string_nil (r : String) : make_unique_string [] r = r := by
  simp [make_unique_string, msAuxO]

/-- One collision on a name whose full path has no digit-run-before-dot:
the allocator inserts the blank-one suffix before the extension. -/
theorem make_unique_single_collision (v : String) (hfm : findMatch v.data = none) :
    make_unique_string [v] v
      = String.mk ((splitextL v.data).1 ++ [' ', '1'] ++ (splitextL v.data).2) := by
  rw [make_unique_string]
  show (msAuxO (0 + 1 + 1) [v] v).getD v = _
  rw [msAuxO, if_pos (by simp)]
  have hnext : nextS v = String.mk ((splitextL v.data).1 ++ [' ', '1'] ++ (splitextL v.data).2) := by
    rw [nextS, nextCandidate, hfm]
  rw [hnext, msAuxO, if_neg (by
    simp only [List.mem_singleton]
    intro heq
    have hdata := congrArg String.data heq
    have hlen := congrArg List.length hdata
    have hc := congrArg List.length (splitextL_append v.data)
    simp only [List.length_append, List.length_cons, List.length_nil] at hlen hc
    omega)]
  rfl

theorem dlookup_pair_first {k1 v1 k2 v2 : String} (h : k2 ≠ k1) :
    dlookup [(k1, v1), (k2, v2)] k1 = some v1 := by
  unfold dlookup
  simp [List.find?, h]

theorem dlookup_pair_second (k1 v1 k2 v2 : String) :
    dlookup [(k1, v1), (k2, v2)] k2 = some v2 := by
  unfold dlookup
  simp [List.find?]

/-- C3 counterexample: with an attachment `img.png` at the source root and an
identically named attachment in subfolder `a`, the walk visits the root file
first, so the root file keeps the plain name and `a/img.png` receives the
` 1` suffix — although `Z/a/img.png` precedes `Z/img.png` lexicographically.
The suffixes are therefore not assigned in lexicographic source-path order. -/
theorem attachment_suffix_not_lexicographic :
    dlookup (map_zim_dir_to_obsidian_dir ⟨"Z", "O", [".ini"], true, true, "attachments"⟩
        [⟨"", [], [("img.png", false)]⟩, ⟨"a", [], [("img.png", false)]⟩]).file_map
        "Z/img.png" = some "O/attachments/img.png" ∧
      dlookup (map_zim_dir_to_obsidian_dir ⟨"Z", "O", [".ini"], true, true, "attachments"⟩
        [⟨"", [], [("img.png", false)]⟩, ⟨"a", [], [("img.png", false)]⟩]).file_map
        "Z/a/img.png" = some "O/attachments/img 1.png" ∧
      ("Z/a/img.png").data < ("Z/img.png").data := by
  refine ⟨?_, ?_, by decide⟩ <;> rfl

/-- C3 amended: under global-attachment mode, same-named attachments receive
the incrementing suffix in the order the walk processes them (the code sorts
nothing): the first-processed file keeps the plain name, the second receives
the blank-one suffix, whatever the lexicographic order of their source
paths. -/
theorem attachment_suffix_traversal_order
    (cfg : MapCfg) (e1 e2 : WalkEntry) (f froot pext : String)
    (hga : cfg.use_global_attachments = true)
    (hf1 : e1.files = [(f, false)]) (hf2 : e2.files = [(f, false)])
    (hd1 : e1.folders = []) (hd2 : e2.folders = [])
    (hig : (splitext f).2 ∉ cfg.ignore_extensions)
    (hfm : findMatch (joinPath (joinPath cfg.obs_dir
      cfg.global_attachments_relative_path) f).data = none)
    (hsxp : splitextL (joinPath (joinPath cfg.obs_dir
        cfg.global_attachments_relative_path) f).data
      = ((joinPath (joinPath cfg.obs_dir cfg.global_attachments_relative_path) froot).data,
        ("." ++ pext).data))
    (hkeys : joinPath (joinPath cfg.zim_dir e1.relroot) f
      ≠ joinPath (joinPath cfg.zim_dir e2.relroot) f) :
    dlookup (map_zim_dir_to_obsidian_dir cfg [e1, e2]).file_map
        (joinPath (joinPath cfg.zim_dir e1.relroot) f)
      = some (joinPath (joinPath cfg.obs_dir cfg.global_attachments_relative_path) f) ∧
    dlookup (map_zim_dir_to_obsidian_dir cfg [e1, e2]).file_map
        (joinPath (joinPath cfg.zim_dir e2.relroot) f)
      = some (joinPath (joinPath cfg.obs_dir cfg.global_attachments_relative_path) froot
          ++ " 1." ++ pext) := by
  have hstep : ∀ (st : MapState) (rel : String),
      processFile cfg rel st (f, false) = { st with file_map := st.file_map ++
        [(joinPath (joinPath cfg.zim_dir rel) f,
          make_unique_string (st.file_map.map Prod.snd)
            (joinPath (joinPath cfg.obs_dir cfg.global_attachments_relative_path) f))] } := by
    intro st rel
    unfold processFile
    dsimp only
    rw [if_neg (by simp), if_neg hig, if_pos hga]
  set A1 := joinPath (joinPath cfg.obs_dir cfg.global_attachments_relative_path) f with hA1
  have hE1 : processEntry cfg ⟨[], [], []⟩ e1
      = { folder_map := [], note_map := [],
          file_map := [(joinPath (joinPath cfg.zim_dir e1.relroot) f, A1)] } := by
    rw [processEntry, hd1, hf1, List.foldl_nil, List.foldl_cons, List.foldl_nil, hstep]
    simp [make_unique_string_nil]
  have hE2 : processEntry cfg
        (⟨[], [], [(joinPath (joinPath cfg.zim_dir e1.relroot) f, A1)]⟩ : MapState) e2
      = { folder_map := [], note_map := [],
          file_map := [(joinPath (joinPath cfg.zim_dir e1.relroot) f, A1),
            (joinPath (joinPath cfg.zim_dir e2.relroot) f, make_unique_string [A1] A1)] } := by
    rw [processEntry, hd2, hf2, List.foldl_nil, List.foldl_cons, List.foldl_nil, hstep]
    rfl
  have hM : map_zim_dir_to_obsidian_dir cfg [e1, e2]
      = { folder_map := [], note_map := [],
          file_map := [(joinPath (joinPath cfg.zim_dir e1.relroot) f, A1),
            (joinPath (joinPath cfg.zim_dir e2.relroot) f, make_unique_string [A1] A1)] } := by
    rw [map_zim_dir_to_obsidian_dir, List.foldl_cons, List.foldl_cons, List.foldl_nil,
      hE1, hE2]
  have hval : make_unique_string [A1] A1
      = joinPath (joinPath cfg.obs_dir cfg.global_attachments_relative_path) froot
          ++ " 1." ++ pext := by
    rw [make_unique_single_collision A1 hfm]
    apply strEq_of_data
    show (splitextL A1.data).1 ++ [' ', '1'] ++ (splitextL A1.data).2 = _
    rw [hsxp]
    simp [str_data_append, List.append_assoc]
  rw [hM, hval]
  exact ⟨dlookup_pair_first (fun h => hkeys h.symm), dlookup_pair_second _ _ _ _⟩

/-- Witness for the amended C3 at concrete inputs. -/
theorem attachment_suffix_traversal_order_witness :
    dlookup (map_zim_dir_to_obsidian_dir ⟨"Z", "O", [".ini"], true, true, "attachments"⟩
        [⟨"", [], [("img.png", false)]⟩, ⟨"a", [], [("img.png", false)]⟩]).file_map
        (joinPath (joinPath "Z" "") "img.png")
      = some (joinPath (joinPath "O" "attachments") "img.png") ∧
    dlookup (map_zim_dir_to_obsidian_dir ⟨"Z", "O", [".ini"], true, true, "attachments"⟩
        [⟨"", [], [("img.png", false)]⟩, ⟨"a", [], [("img.png", false)]⟩]).file_map
        (joinPath (joinPath "Z" "a") "img.png")
      = some (joinPath (joinPath "O" "attachments") "img" ++ " 1." ++ "png") :=
  attachment_suffix_traversal_order ⟨"Z", "O", [".ini"], true, true, "attachments"⟩
    ⟨"", [], [("img.png", false)]⟩ ⟨"a", [], [("img.png", false)]⟩ "img.png" "img" "png"
    rfl rfl rfl rfl rfl (by decide) (by decide) (by decide) (by decide)

/-! ## A small backtracking regex engine

Each regex of the source is transliterated into a list of pattern elements:
literal characters, character-class repetitions `cls p lo hi lazy` (with
`hi = none` for unbounded), group markers, and the end anchor.  `runElems`
implements the backtracking search exactly as the Python engine does on
these patterns: a lazy repetition tries the continuation before consuming,
a greedy one consumes first; a sequence backtracks through the choices in
that order. -/

inductive PElem where
  | lit (c : Char)
  | cls (p : Char → Bool) (lo : Nat) (hi : Option Nat) (lz : Bool)
  | openG (n : Nat)
  | closeG (n : Nat)
  | eos

/-- Decrement a repetition bound. -/
def decHi : Option Nat → Option Nat
  | none => none
  | some k => some (k - 1)

/-- Whether the repetition bound still allows consuming a character. -/
def hiPos : Option Nat → Bool
  | none => true
  | some k => k ≠ 0

/-- Group captured so far: the saved suffix at `openG` minus the current one. -/
def capLookup (caps : List (Nat × List Char)) (n : Nat) : List Char :=
  match caps.find? (fun e => e.1 = n) with
  | some e => e.2
  | none => []

/-- The backtracking matcher: given the remaining pattern, the remaining
input, the stack of open-group positions and the captures so far, return the
captures and the rest of the input after the first (in backtracking order)
successful match. -/
def runElemsF : Nat → List PElem → List Char → List (Nat × List Char) →
    List (Nat × List Char) → Option (List (Nat × List Char) × List Char)
  | 0, _, _, _, _ => none
  | _ + 1, [], s, _, caps => some (caps, s)
  | fuel + 1, .lit c :: P, s, st, caps =>
    match s with
    | [] => none
    | d :: s2 => if d = c then runElemsF fuel P s2 st caps else none
  | fuel + 1, .openG n :: P, s, st, caps => runElemsF fuel P s ((n, s) :: st) caps
  | fuel + 1, .closeG n :: P, s, st, caps =>
    match st.find? (fun e => e.1 = n) with
    | none => none
    | some e => runElemsF fuel P s st (caps ++ [(n, e.2.take (e.2.length - s.length))])
  | fuel + 1, .eos :: P, s, st, caps =>
    if s.isEmpty then runElemsF fuel P s st caps else none
  | fuel + 1, .cls p lo hi lz :: P, s, st, caps =>
    if lo > 0 then
      match s with
      | [] => none
      | c :: s2 =>
        if p c then runElemsF fuel (.cls p (lo - 1) (decHi hi) lz :: P) s2 st caps
        else none
    else
      if lz then
        (runElemsF fuel P s st caps).orElse (fun _ =>
          match s with
          | [] => none
          | c :: s2 =>
            if p c ∧ hiPos hi then runElemsF fuel (.cls p 0 (decHi hi) lz :: P) s2 st caps
            else none)
      else
        (match s with
          | [] => none
          | c :: s2 =>
            if p c ∧ hiPos hi then runElemsF fuel (.cls p 0 (decHi hi) lz :: P) s2 st caps
            else none).orElse
          (fun _ => runElemsF fuel P s st caps)

/-- Every recursive step of the matcher shrinks `input length + pattern
length`, so that sum (plus one) is enough fuel: the zero-fuel branch is never
reached. -/
def runElems (P : List PElem) (s : List Char) (st caps : List (Nat × List Char)) :
    Option (List (Nat × List Char) × List Char) :=
  runElemsF (s.length + P.length + 1) P s st caps

/-- Match attempt anchored at the current position. -/
def matchHere (pat : List PElem) (s : List Char) :
    Option (List (Nat × List Char) × List Char) :=
  runElems pat s [] []

/-- Leftmost match: the prefix before the match, the captures, the rest. -/
def scanMatch (pat : List PElem) : List Char →
    Option (List Char × (List (Nat × List Char) × List Char))
  | [] =>
    match matchHere pat [] with
    | some r => some ([], r)
    | none => none
  | c :: s2 =>
    match matchHere pat (c :: s2) with
    | some r => some ([], r)
    | none => (scanMatch pat s2).map (fun r => (c :: r.1, r.2))

/-- All non-overlapping matches, left to right (`re.findall`); the fuel is
the input length plus one, which bounds the number of matches. -/
def findAllAux (pat : List PElem) : List Char → Nat → List (List (Nat × List Char))
  | _, 0 => []
  | s, fuel + 1 =>
    match scanMatch pat s with
    | none => []
    | some (pre, caps, rest) =>
      caps :: (if pre.length + rest.length < s.length then findAllAux pat rest fuel
        else match rest with
          | [] => []
          | _ :: r2 => findAllAux pat r2 fuel)

def findAll (pat : List PElem) (s : List Char) : List (List (Nat × List Char)) :=
  findAllAux pat s (s.length + 1)

/-- A replacement template: literal pieces and group references. -/
inductive Tmpl where
  | str (s : String)
  | grp (n : Nat)

def applyTmpl (caps : List (Nat × List Char)) (t : List Tmpl) : List Char :=
  t.foldr (fun part acc =>
    (match part with
      | .str s => s.data
      | .grp n => capLookup caps n) ++ acc) []

/-- `re.sub` replacing every non-overlapping occurrence. -/
def rsubAux (pat : List PElem) (t : List Tmpl) : List Char → Nat → List Char
  | s, 0 => s
  | s, fuel + 1 =>
    match matchHere pat s with
    | some (caps, rest) =>
      if rest.length < s.length then applyTmpl caps t ++ rsubAux pat t rest fuel
      else
        applyTmpl caps t ++
          (match rest with
            | [] => []
            | c :: r2 => c :: rsubAux pat t r2 fuel)
    | none =>
      match s with
      | [] => []
      | c :: s2 => c :: rsubAux pat t s2 fuel

def rsubAll (pat : List PElem) (t : List Tmpl) (s : List Char) : List Char :=
  rsubAux pat t s (s.length + 1)

/-- `re.sub` with a pattern anchored at the line start: at most one
replacement, at position zero. -/
def asub (pat : List PElem) (t : List Tmpl) (s : List Char) : List Char :=
  match matchHere pat s with
  | some (caps, rest) => applyTmpl caps t ++ rest
  | none => s

/-- Split off a single trailing newline, the position where an end anchor may
also match. -/
def stripNL (s : List Char) : List Char × List Char :=
  match s.getLast? with
  | some c => if c = '
' then (s.dropLast, ['
']) else (s, [])
  | none => (s, [])

/-- `re.sub` for a pattern ending in the `$` anchor (modelled by running on
the line with its trailing newline split off and the `eos` element at the
end of the pattern). -/
def esubAll (pat : List PElem) (t : List Tmpl) (s : List Char) : List Char :=
  let cn := stripNL s
  rsubAll pat t cn.1 ++ cn.2

/-- `re.sub` for a pattern anchored at both ends. -/
def easub (pat : List PElem) (t : List Tmpl) (s : List Char) : List Char :=
  let cn := stripNL s
  asub pat t cn.1 ++ cn.2

/-- String-level wrappers. -/
def rsubAllS (pat : List PElem) (t : List Tmpl) (s : String) : String :=
  String.mk (rsubAll pat t s.data)

def asubS (pat : List PElem) (t : List Tmpl) (s : String) : String :=
  String.mk (asub pat t s.data)

def esubAllS (pat : List PElem) (t : List Tmpl) (s : String) : String :=
  String.mk (esubAll pat t s.data)

def easubS (pat : List PElem) (t : List Tmpl) (s : String) : String :=
  String.mk (easub pat t s.data)

/-- The two-group `findall` used by the link and embed loops: whole bracketed
span (group 1) and inner text (group 2). -/
def findAllS2 (pat : List PElem) (s : String) : List (String × String) :=
  (findAll pat s.data).map (fun caps =>
    (String.mk (capLookup caps 1), String.mk (capLookup caps 2)))

/-! ## Character classes of the regexes -/

/-- The dot of a pattern without DOTALL: any character except a newline. -/
def dotC (c : Char) : Bool := c ≠ '\n'

/-- The whitespace class (its ASCII members; the strings handled in the
claims are ASCII). -/
def isWsC (c : Char) : Bool :=
  c = ' ' ∨ c = '\t' ∨ c = '\n' ∨ c = '\r' ∨ c = '\x0b' ∨ c = '\x0c'

def nonWsC (c : Char) : Bool := ¬ isWsC c

/-! ## Python string helpers -/

/-- `str.replace(old, new)`: replace every non-overlapping occurrence, left
to right. -/
def replaceAllF (old new : List Char) : Nat → List Char → List Char
  | 0, s => s
  | _ + 1, [] => []
  | fuel + 1, c :: r =>
    if old ≠ [] ∧ (c :: r).take old.length = old then
      new ++ replaceAllF old new fuel ((c :: r).drop old.length)
    else c :: replaceAllF old new fuel r

/-- A replaced occurrence consumes at least one character, so the input
length is enough fuel. -/
def replaceAllL (old new : List Char) (s : List Char) : List Char :=
  replaceAllF old new s.length s

def pyReplace (s old new : String) : String :=
  String.mk (replaceAllL old.data new.data s.data)

/-- `str.replace(old, new, 1)`. -/
def replaceFirstL (old new : List Char) : List Char → List Char
  | [] => []
  | c :: r =>
    if old ≠ [] ∧ (c :: r).take old.length = old then
      new ++ (c :: r).drop old.length
    else c :: replaceFirstL old new r

def replaceFirst (s old new : String) : String :=
  String.mk (replaceFirstL old.data new.data s.data)

/-- The `in` operator on strings: substring occurrence. -/
def containsSubL (sub : List Char) : List Char → Bool
  | [] => sub.isEmpty
  | c :: r => if (c :: r).take sub.length = sub then true else containsSubL sub r

def strContains (s sub : String) : Bool := containsSubL sub.data s.data

/-- `str.split(sep)` for a one-character separator. -/
def splitCharL (c : Char) : List Char → List (List Char)
  | [] => [[]]
  | d :: r =>
    match splitCharL c r with
    | [] => [[d]]
    | h :: t => if d = c then [] :: h :: t else (d :: h) :: t

def pySplit (s : String) (c : Char) : List String :=
  (splitCharL c s.data).map String.mk

/-- `str.startswith`. -/
def pyStartsWith (s pre : String) : Bool := s.data.take pre.data.length = pre.data

/-- Slicing `s[n:]`. -/
def pyDrop (s : String) (n : Nat) : String := String.mk (s.data.drop n)

/-- `str.find` for a one-character needle: index or `-1`. -/
def pyFindChar (s : String) (c : Char) : Int :=
  match s.data.findIdx? (fun d => d = c) with
  | some i => (i : Int)
  | none => -1

/-- `int(str)`: optional sign and a nonempty digit run, after stripping
whitespace (underscore separators of Python are not modelled). -/
def pyInt (s : String) : Option Int :=
  let t := ((s.data.dropWhile isWsC).reverse.dropWhile isWsC).reverse
  match t with
  | '-' :: ds => if ds ≠ [] ∧ ds.all isDigitC then some (-(digitsToNat ds : Int)) else none
  | '+' :: ds => if ds ≠ [] ∧ ds.all isDigitC then some ((digitsToNat ds : Int)) else none
  | ds => if ds ≠ [] ∧ ds.all isDigitC then some ((digitsToNat ds : Int)) else none

/-- `str(int)`. -/
def intToStr (i : Int) : String :=
  if i < 0 then "-" ++ String.mk (natToDigits i.natAbs) else String.mk (natToDigits i.natAbs)

/-- `Path.relative_to`, on canonical strings: the base itself, or a proper
descendant; `none` models the raised `ValueError`. -/
def pathRelTo (p base : String) : Option String :=
  if p = base then some "."
  else if pyStartsWith p (base ++ "/") then some (pyDrop p (base ++ "/").data.length)
  else none

/-- `os.path.split(p)[-1]`. -/
def osBasename (s : String) : String := String.mk (basenameSplitL s.data).2

def endsWithSlash (a : String) : Bool := a.data.getLast? = some '/'

/-- `os.path.join` for the relative second arguments the source produces. -/
def osJoin (a b : String) : String :=
  if b = "" then (if endsWithSlash a then a else a ++ "/")
  else if a = "" then b
  else if endsWithSlash a then a ++ b
  else a ++ "/" ++ b

/-- Key membership in a journal dict (`in` on a Python dict). -/
def dcontains (m : List (String × String)) (k : String) : Bool :=
  m.any (fun e => e.1 = k)

/-- `zim_filepath_to_title`: basename without extension, underscores
rendered as spaces. -/
def zim_filepath_to_title (fp : String) : String :=
  pyReplace (splitext (String.mk (basenameSplitL fp.data).2)).1 "_" " "

/-- `os.path.relpath` restricted to paths under the base (the only use in
the source); other arguments are returned unchanged rather than rewritten
with parent markers. -/
def relpathUnder (fp base : String) : String :=
  if fp = base then "."
  else if pyStartsWith fp (base ++ "/") then pyDrop fp (base ++ "/").data.length
  else fp

/-- `zim_filepath_to_titlepath`: relative path without extension,
underscores rendered as spaces. -/
def zim_filepath_to_titlepath (fp zim : String) : String :=
  pyReplace (splitext (relpathUnder fp zim)).1 "_" " "

/-! ## The regex patterns of `translate_line`, transliterated -/

/-- A run of literal elements. -/
def litStr (s : String) : List PElem := s.data.map PElem.lit

/-- `^(=+)([^=]+)=+$` (tail-equals stripping on heading lines). -/
def patHeadingStrip : List PElem :=
  [.openG 1, .cls (fun c => c = '=') 1 none false, .closeG 1,
   .openG 2, .cls (fun c => c ≠ '=') 1 none false, .closeG 2,
   .cls (fun c => c = '=') 1 none false, .eos]

def tmplHeadingStrip : List Tmpl := [.grp 1, .grp 2]

/-- `\[d:(\d{4}-\d{,2}-\d{,2})](.+)$`. -/
def patDate1 : List PElem :=
  litStr "[d:" ++
  [.openG 1, .cls isDigitC 4 (some 4) false, .lit '-',
   .cls isDigitC 0 (some 2) false, .lit '-', .cls isDigitC 0 (some 2) false, .closeG 1,
   .lit ']', .openG 2, .cls dotC 1 none false, .closeG 2, .eos]

def tmplDate1 : List Tmpl :=
  [.grp 2, .str "\nDEADLINE: <", .grp 1, .str " Day>"]

/-- `\[d:(\d{,2})\.(\d{,2})\.(\d{4})](.+)$` (central European dates). -/
def patDate2 : List PElem :=
  litStr "[d:" ++
  [.openG 1, .cls isDigitC 0 (some 2) false, .closeG 1, .lit '.',
   .openG 2, .cls isDigitC 0 (some 2) false, .closeG 2, .lit '.',
   .openG 3, .cls isDigitC 4 (some 4) false, .closeG 3, .lit ']',
   .openG 4, .cls dotC 1 none false, .closeG 4, .eos]

def tmplDate2 : List Tmpl :=
  [.grp 4, .str "\nDEADLINE: <", .grp 3, .str "-", .grp 2, .str "-", .grp 1, .str " Day>"]

/-- `\[d:(\d{,2})/(\d{,2})/(\d{4})](.+)$` (American dates). -/
def patDate3 : List PElem :=
  litStr "[d:" ++
  [.openG 1, .cls isDigitC 0 (some 2) false, .closeG 1, .lit '/',
   .openG 2, .cls isDigitC 0 (some 2) false, .closeG 2, .lit '/',
   .openG 3, .cls isDigitC 4 (some 4) false, .closeG 3, .lit ']',
   .openG 4, .cls dotC 1 none false, .closeG 4, .eos]

def tmplDate3 : List Tmpl :=
  [.grp 4, .str "\nDEADLINE: <", .grp 3, .str "-", .grp 1, .str "-", .grp 2, .str " Day>"]

/-- `\[d:(\d{,2}).(\d{,2}).\](.+)$` — the two inner dots are unescaped in
the source, so they are the any-character dot. -/
def patDate4 : List PElem :=
  litStr "[d:" ++
  [.openG 1, .cls isDigitC 0 (some 2) false, .closeG 1, .cls dotC 1 (some 1) false,
   .openG 2, .cls isDigitC 0 (some 2) false, .closeG 2, .cls dotC 1 (some 1) false,
   .lit ']', .openG 3, .cls dotC 1 none false, .closeG 3, .eos]

def tmplDate4 (year : Nat) : List Tmpl :=
  [.grp 3, .str ("\nDEADLINE: <" ++ String.mk (natToDigits year) ++ "-"),
   .grp 2, .str "-", .grp 1, .str " Day>"]

/-- `([\[]{2}(.+?\|?[^\]]+?)[\]]{2})` (the link token finder). -/
def patLink : List PElem :=
  [.openG 1, .lit '[', .lit '[', .openG 2,
   .cls dotC 1 none true,
   .cls (fun c => c = '|') 0 (some 1) false,
   .cls (fun c => c ≠ ']') 1 none true,
   .closeG 2, .lit ']', .lit ']', .closeG 1]

/-- The embed token finder: identical to the link finder with braces outside
(the inner negated class still excludes only the square bracket, as in the
source). -/
def patEmbed : List PElem :=
  [.openG 1, .lit '\x7b', .lit '\x7b', .openG 2,
   .cls dotC 1 none true,
   .cls (fun c => c = '|') 0 (some 1) false,
   .cls (fun c => c ≠ ']') 1 none true,
   .closeG 2, .lit '\x7d', .lit '\x7d', .closeG 1]

/-- `^(\s*)\[<mark>\]` for the four checklist marks. -/
def patListMark (mark : Char) : List PElem :=
  [.openG 1, .cls isWsC 0 none false, .closeG 1, .lit '[', .lit mark, .lit ']']

def tmplListMark (mark : Char) : List Tmpl :=
  [.grp 1, .str (String.mk ['-', ' ', '[', mark, ']'])]

/-- `^@(\S+)`. -/
def patTagStart : List PElem :=
  [.lit '@', .openG 1, .cls nonWsC 1 none false, .closeG 1]

/-- `\s+@(\S+)`. -/
def patTagMid : List PElem :=
  [.cls isWsC 1 none false, .lit '@', .openG 1, .cls nonWsC 1 none false, .closeG 1]

def tmplTag : List Tmpl := [.str "#", .grp 1]

/-- `\[\[\+(\S+?)\]\]`. -/
def patPlusLink : List PElem :=
  [.lit '[', .lit '[', .lit '+', .openG 1, .cls nonWsC 1 none true, .closeG 1,
   .lit ']', .lit ']']

def tmplPlusLink : List Tmpl := [.str "[[", .grp 1, .str "]]"]

/-- `//(.+?)//`. -/
def patItalic : List PElem :=
  [.lit '/', .lit '/', .openG 1, .cls dotC 1 none true, .closeG 1, .lit '/', .lit '/']

def tmplStarWrap : List Tmpl := [.str "*", .grp 1, .str "*"]

/-- `_\{(.+?)\}`. -/
def patSubscript : List PElem :=
  [.lit '_', .lit '\x7b', .openG 1, .cls dotC 1 none true, .closeG 1, .lit '\x7d']

def tmplSubscript : List Tmpl := [.str "<sub>", .grp 1, .str "</sub>"]

/-- `\^\{(.+?)\}`. -/
def patSuperscript : List PElem :=
  [.lit '^', .lit '\x7b', .openG 1, .cls dotC 1 none true, .closeG 1, .lit '\x7d']

def tmplSuperscript : List Tmpl := [.str "<sup>", .grp 1, .str "</sup>"]

/-- `~~(.+?)~~` (rewritten to itself). -/
def patStrike : List PElem :=
  [.lit '~', .lit '~', .openG 1, .cls dotC 1 none true, .closeG 1, .lit '~', .lit '~']

def tmplStrike : List Tmpl := [.str "~~", .grp 1, .str "~~"]

/-- `(!?<=:)//([^:]+?)//` — a malformed lookbehind: it is a group matching a
literal `<=:` optionally preceded by `!`, and the replacement keeps group 1,
dropping group 2. -/
def patColonItalic : List PElem :=
  [.openG 1, .cls (fun c => c = '!') 0 (some 1) false, .lit '<', .lit '=', .lit ':',
   .closeG 1, .lit '/', .lit '/', .openG 2, .cls (fun c => c ≠ ':') 1 none true,
   .closeG 2, .lit '/', .lit '/']

/-- `\*\*(.+?)\*\*` (rewritten to itself). -/
def patBold : List PElem :=
  [.lit '*', .lit '*', .openG 1, .cls dotC 1 none true, .closeG 1, .lit '*', .lit '*']

def tmplBold : List Tmpl := [.str "**", .grp 1, .str "**"]

/-- `__(.+?)__` (highlight). -/
def patHighlight : List PElem :=
  [.lit '_', .lit '_', .openG 1, .cls dotC 1 none true, .closeG 1, .lit '_', .lit '_']

def tmplHighlight : List Tmpl := [.str "==", .grp 1, .str "=="]

/-- The twenty-dash horizontal line. -/
def patHr : List PElem := (List.replicate 20 '-').map PElem.lit

def tmplHr : List Tmpl := [.str "\n---"]

/-- `====== (.*) ======` (the duplicate-title line of `translate_file`). -/
def patTopline : List PElem :=
  litStr "====== " ++ [.openG 1, .cls dotC 0 none false, .closeG 1] ++ litStr " ======"

/-- `.+lang="(.+)" ` (the language tag of a code-fence opener). -/
def patLang : List PElem :=
  [.cls dotC 1 none false] ++ litStr "lang=\"" ++
  [.openG 1, .cls dotC 1 none false, .closeG 1] ++ litStr "\" "

/-! ## `translate_line`

The filesystem-dependent inputs of `translate_line` are bundled into an
environment: the frozen note and file mappings, the flags, and oracles for
`Path.is_dir` and for reading image dimensions (`none` models an unreadable
image).  `datetime.date.today().year` is likewise an input.  Exceptions are
modelled by `Except`: the raised absolute-path error, the `KeyError` of a
missing attachment lookup, the `ValueError` of a failed unpacking or
`relative_to`, and the `IndexError` of the fence scan. -/

inductive PyErr where
  | absInsideZim
  | keyErr
  | valueErr
  | indexErr
deriving DecidableEq

structure TEnv where
  zim_dir : String
  obs_dir : String
  old_filepath : String
  note_map : List (String × String)
  file_map : List (String × String)
  use_folder_notes : Bool
  use_global_attachments : Bool
  global_attachments_relative_path : String
  isDir : String → Bool
  imageSize : String → Option (Nat × Nat)
  year : Nat

/-- One iteration of the link loop (`for bracketed_link, internal in
re.findall(..)`): returns the line with the bracketed span replaced once. -/
def processLinkToken (env : TEnv) (line : String) (tok : String × String) :
    Except PyErr String := do
  let bracketed := tok.1
  let internal := tok.2
  let (target0, display0) ←
    if strContains internal "|" then
      match pySplit internal '|' with
      | [t, d] => Except.ok (t, d)
      | _ => Except.error PyErr.valueErr
    else Except.ok (internal, internal)
  -- wikipedia shortcut: the explicit display is overwritten by the rest
  let (target1, display1) :=
    if pyStartsWith target0 "wp?" then
      (pyReplace (pyReplace target0 "wp?" "https://wikipedia.org/wiki/") " " "_",
        pyDrop target0 3)
    else (target0, display0)
  let page_path := zim_filepath_to_titlepath env.old_filepath env.zim_dir
  let (target2, display2, absolute) ←
    if pyStartsWith target1 "http" then
      Except.ok (target1, display1, false)
    else if pyStartsWith target1 "file:///" then
      let t2 := pyDrop target1 8
      match pathRelTo t2 env.zim_dir with
      | some _ => Except.error PyErr.absInsideZim
      | none => Except.ok (t2, display1, true)
    else if pyStartsWith target1 "./" ∨ pyStartsWith target1 ".\\" then
      let t2 := pyDrop target1 2
      let d2 := if pyStartsWith display1 "./" ∨ pyStartsWith display1 ".\\" then
          pyDrop display1 2 else display1
      let zim_abs := joinPath (joinPath env.zim_dir page_path) t2
      match dlookup env.file_map zim_abs with
      | none => Except.error PyErr.keyErr
      | some obs_abs =>
        if env.use_global_attachments then
          match pathRelTo obs_abs
              (joinPath env.obs_dir env.global_attachments_relative_path) with
          | none => Except.error PyErr.valueErr
          | some rel => Except.ok (rel, d2, false)
        else
          match pathRelTo obs_abs env.obs_dir with
          | none => Except.error PyErr.valueErr
          | some rel => Except.ok (rel, d2, false)
    else
      let t2 := if pyStartsWith target1 "+" then
          page_path ++ ":" ++ pyDrop target1 1 else target1
      let t3 := if pyStartsWith t2 ":" then
          pyDrop t2 (Int.toNat (pyFindChar (pyDrop t2 1) ':' + 2)) else t2
      Except.ok (pyReplace t3 ":" "\\", display1, false)
  -- folder-note redirection, one level into the folder page
  let target3 :=
    if env.use_folder_notes ∧ env.isDir (joinPath env.zim_dir target2) then
      osJoin target2 (osBasename target2)
    else target2
  -- underscore retry against the note mapping
  let target4 :=
    if ¬ dcontains env.note_map (withSuffix (joinPath env.zim_dir target3) ".txt") then
      let under := pyReplace target3 " " "_"
      if dcontains env.note_map (withSuffix (joinPath env.zim_dir under) ".txt") then
        under
      else target3
    else target3
  let target5 := pyReplace target4 "\\" "/"
  if target5 ≠ display2 ∨ absolute = true then
    if strContains target5 " " then
      Except.ok (replaceFirst line bracketed ("[" ++ display2 ++ "](<" ++ target5 ++ ">)"))
    else
      Except.ok (replaceFirst line bracketed ("[" ++ display2 ++ "](" ++ target5 ++ ")"))
  else
    Except.ok (replaceFirst line bracketed ("[[" ++ target5 ++ "]]"))

/-- The option dict of an embed: `dict([x.split("=") for x in opts.split("&")])`,
`none` modelling the `ValueError` on a piece without exactly one `=`. -/
def buildOptsDict (parts : List String) : Option (List (String × String)) :=
  parts.mapM (fun x =>
    match pySplit x '=' with
    | [k, v] => some (k, v)
    | _ => none)

/-- The keys of a dict in first-insertion order. -/
def keysInOrderF : Nat → List String → List String
  | 0, _ => []
  | _ + 1, [] => []
  | fuel + 1, k :: r => k :: keysInOrderF fuel (r.filter (fun d => d ≠ k))

/-- Filtering never lengthens the tail, so the list length is enough fuel. -/
def keysInOrder (l : List String) : List String := keysInOrderF l.length l

/-- `dict.items()` on the journal model: first-insertion key order, last
value. -/
def pyDictItems (l : List (String × String)) : List (String × String) :=
  (keysInOrder (l.map Prod.fst)).map (fun k => (k, (dlookup l k).getD ""))

/-- The body of the width/height computation inside the `try`: any failing
step (unbound image path, unreadable image, unparsable int, zero dimension)
makes the whole attempt fail, which the `except` turns into omitting the
suffix.  The float arithmetic `int(int(v) / dim * other)` is modelled by the
exact rational truncated toward zero; float rounding is not modelled. -/
def computeDims (env : TEnv) (zim_abs : Option String)
    (dict : List (String × String)) (key : String) : Option (Int × Int) := do
  let za ← zim_abs
  let wh ← env.imageSize za
  if key = "height" then
    let hs ← dlookup dict "height"
    let xh ← pyInt hs
    if wh.2 = 0 then none
    else some (Int.tdiv (xh * (wh.1 : Int)) (wh.2 : Int), xh)
  else
    let ws ← dlookup dict "width"
    let xw ← pyInt ws
    if wh.1 = 0 then none
    else some (xw, Int.tdiv (xw * (wh.2 : Int)) (wh.1 : Int))

/-- The option loop of an embed: `height`/`width` append a `|WxH` suffix on
success, `type` is ignored, any other key only warns. -/
def applyOpts (env : TEnv) (zim_abs : Option String)
    (dict : List (String × String)) (target : String) : String :=
  (pyDictItems dict).foldl (fun tgt kv =>
    if kv.1 = "height" ∨ kv.1 = "width" then
      match computeDims env zim_abs dict kv.1 with
      | some wh2 => tgt ++ "|" ++ intToStr wh2.1 ++ "x" ++ intToStr wh2.2
      | none => tgt
    else tgt) target

/-- One iteration of the embed loop. -/
def processEmbedToken (env : TEnv) (line : String) (tok : String × String) :
    Except PyErr String := do
  let bracketed := tok.1
  let internal := tok.2
  let (targetA, options) ←
    if strContains internal "?" then
      match pySplit internal '?' with
      | [t, o] => Except.ok (t, some o)
      | _ => Except.error PyErr.valueErr
    else Except.ok (internal, (none : Option String))
  let (targetB, absoluteB, zimAbsB) ←
    if pyStartsWith targetA "file:///" then
      let t2 := pyDrop targetA 8
      match pathRelTo t2 env.zim_dir with
      | some _ => Except.error PyErr.absInsideZim
      | none => Except.ok (t2, true, some t2)
    else Except.ok (targetA, false, (none : Option String))
  let (targetC, absoluteC, zimAbsC) ←
    if pyStartsWith targetB ".\\" ∨ pyStartsWith targetB "./" then
      let t2 := pyDrop targetB 2
      match pathRelTo env.old_filepath env.zim_dir with
      | none => Except.error PyErr.valueErr
      | some rel =>
        let local_folder := withSuffix rel ""
        let za := joinPath (joinPath env.zim_dir local_folder) t2
        match dlookup env.file_map za with
        | none => Except.error PyErr.keyErr
        | some obs_abs =>
          if env.use_global_attachments then
            match pathRelTo obs_abs
                (joinPath env.obs_dir env.global_attachments_relative_path) with
            | none => Except.error PyErr.valueErr
            | some rel2 => Except.ok (rel2, false, some za)
          else
            match pathRelTo obs_abs env.obs_dir with
            | none => Except.error PyErr.valueErr
            | some rel2 => Except.ok (rel2, false, some za)
    else Except.ok (targetB, absoluteB, zimAbsB)
  let targetD ←
    match options with
    | some o =>
      if o ≠ "" then
        match buildOptsDict (pySplit o '&') with
        | none => Except.error PyErr.valueErr
        | some dict => Except.ok (applyOpts env zimAbsC dict targetC)
      else Except.ok targetC
    | none => Except.ok targetC
  if absoluteC = true then
    Except.ok (replaceFirst line bracketed ("![](file:///" ++ targetD ++ ")"))
  else
    Except.ok (replaceFirst line bracketed ("![[" ++ targetD ++ "]]"))

/-- The sequential fold of a token loop in the `Except` monad. -/
def foldTokens (f : String → String × String → Except PyErr String) :
    List (String × String) → String → Except PyErr String
  | [], line => Except.ok line
  | tok :: rest, line => do
    let line2 ← f line tok
    foldTokens f rest line2

/-- `translate_line`, step for step in the order of the source. -/
def translate_line (env : TEnv) (line0 : String) : Except PyErr String := do
  -- headings
  let line1 := easubS patHeadingStrip tmplHeadingStrip line0
  let line2 := asubS (litStr "======") [Tmpl.str "#"] line1
  let line3 := asubS (litStr "=====") [Tmpl.str "##"] line2
  let line4 := asubS (litStr "====") [Tmpl.str "###"] line3
  let line5 := asubS (litStr "===") [Tmpl.str "####"] line4
  let line6 := asubS (litStr "==") [Tmpl.str "#####"] line5
  let line7 := asubS (litStr "=") [Tmpl.str "######"] line6
  -- dates
  let line8 := esubAllS patDate1 tmplDate1 line7
  let line9 := esubAllS patDate2 tmplDate2 line8
  let line10 := esubAllS patDate3 tmplDate3 line9
  let line11 := esubAllS patDate4 (tmplDate4 env.year) line10
  -- hyperlink loop
  let line12 ← foldTokens (processLinkToken env) (findAllS2 patLink line11) line11
  -- embed loop
  let line13 ← foldTokens (processEmbedToken env) (findAllS2 patEmbed line12) line12
  -- checklists
  let line14 := asubS (patListMark '*') (tmplListMark '*') line13
  let line15 := asubS (patListMark 'x') (tmplListMark 'x') line14
  let line16 := asubS (patListMark '>') (tmplListMark '>') line15
  let line17 := asubS (patListMark ' ') (tmplListMark ' ') line16
  -- tags and sub-page references
  let line18 := asubS patTagStart tmplTag line17
  let line19 := rsubAllS patTagMid tmplTag line18
  let line20 := rsubAllS patPlusLink tmplPlusLink line19
  -- emphasis and rich text
  let line21 := rsubAllS patItalic tmplStarWrap line20
  let line22 := rsubAllS patSubscript tmplSubscript line21
  let line23 := rsubAllS patSuperscript tmplSuperscript line22
  let line24 := rsubAllS patStrike tmplStrike line23
  let line25 := rsubAllS patColonItalic tmplStarWrap line24
  let line26 := rsubAllS patBold tmplBold line25
  let line27 := rsubAllS patHighlight tmplHighlight line26
  -- horizontal line
  Except.ok (rsubAllS patHr tmplHr line27)

/-! ## `translate_file`

The file-level loop.  The source iterates `i` with a pre-increment; after a
code fence closed at index `m` it sets `i := m + 1` and `continue`s, so the
pre-increment makes the next processed index `m + 2`.  The inner fence scan
`while not subline.startswith("\x7d\x7d\x7d"): j += 1; subline = lines[i+j]`
walks past the end of the list when no closer exists, which is the
`IndexError` of the model. -/

/-- The language of a code-fence opener: `re.findall('.+lang="(.+)" ', line)`,
first match, with `python3` rewritten to `python` and `""` when there is no
match. -/
def parseLang (line : String) : String :=
  match findAll patLang line.data with
  | [] => ""
  | caps :: _ =>
    let lang := String.mk (capLookup caps 1)
    if lang = "python3" then "python" else lang

/-- The fence scan from index `k`: the first index `m ≥ k` whose line starts
with three closing braces, `none` when no such line exists.  `lines.length - k`
is enough fuel. -/
def findCloserF : Nat → List String → Nat → Option Nat
  | 0, _, _ => none
  | fuel + 1, lines, k =>
    if h : k < lines.length then
      if pyStartsWith (lines.get ⟨k, h⟩) "\x7d\x7d\x7d" then some k
      else findCloserF fuel lines (k + 1)
    else none

def findCloserFrom (lines : List String) (k : Nat) : Option Nat :=
  findCloserF (lines.length - k) lines k

theorem findCloserF_bounds (fuel : Nat) : ∀ lines k m,
    findCloserF fuel lines k = some m → k ≤ m ∧ m < lines.length := by
  induction fuel with
  | zero => intro lines k m hfc; exact absurd hfc (by simp [findCloserF])
  | succ fuel ih =>
    intro lines k m hfc
    rw [findCloserF] at hfc
    by_cases hk : k < lines.length
    · rw [dif_pos hk] at hfc
      by_cases hs : pyStartsWith (lines.get ⟨k, hk⟩) "\x7d\x7d\x7d" = true
      · rw [if_pos hs] at hfc
        have : k = m := by injection hfc
        omega
      · rw [if_neg hs] at hfc
        have := ih lines (k + 1) m hfc
        omega
    · rw [dif_neg hk] at hfc
      exact absurd hfc (by simp)

theorem findCloserFrom_bounds (lines : List String) (k m : Nat)
    (hfc : findCloserFrom lines k = some m) : k ≤ m ∧ m < lines.length :=
  findCloserF_bounds (lines.length - k) lines k m hfc

theorem findCloserF_eq_none (fuel : Nat) : ∀ lines k,
    lines.length ≤ fuel + k →
    (∀ m (hm : m < lines.length), k ≤ m →
      pyStartsWith (lines.get ⟨m, hm⟩) "\x7d\x7d\x7d" = false) →
    findCloserF fuel lines k = none := by
  induction fuel with
  | zero => intro lines k _ _; rfl
  | succ fuel ih =>
    intro lines k hlen H
    rw [findCloserF]
    by_cases hk : k < lines.length
    · rw [dif_pos hk]
      rw [H k hk (Nat.le_refl k)]
      exact ih lines (k + 1) (by omega) (fun m hm hkm => H m hm (by omega))
    · rw [dif_neg hk]

theorem findCloserFrom_eq_none (lines : List String) (k : Nat)
    (H : ∀ m (hm : m < lines.length), k ≤ m →
      pyStartsWith (lines.get ⟨m, hm⟩) "\x7d\x7d\x7d" = false) :
    findCloserFrom lines k = none :=
  findCloserF_eq_none (lines.length - k) lines k (by omega) H

/-- The translation loop over the body lines.  A fence opener at `i` is
replaced by the opening backtick fence, the closer at `m` by the closing one,
and the loop resumes at `m + 2` (the source adds `j + 1` and the loop head
adds one more, so the line right after the closer is never processed).  A
fence without closer is the `IndexError`. -/
def translateFileLoopF : Nat → TEnv → List String → Nat → Except PyErr (List String)
  | 0, _, lines, _ => Except.ok lines
  | fuel + 1, env, lines, i =>
    if h : i < lines.length then
      if pyStartsWith (lines.get ⟨i, h⟩) "\x7b\x7b\x7bcode:" then
        ((findCloserFrom
            (lines.set i ("```" ++ parseLang (lines.get ⟨i, h⟩) ++ "\n")) i).elim
          (Except.error PyErr.indexErr)
          (fun m => translateFileLoopF fuel env
            ((lines.set i ("```" ++ parseLang (lines.get ⟨i, h⟩) ++ "\n")).set
              m "```\n") (m + 2)))
      else
        (translate_line env (lines.get ⟨i, h⟩)).bind
          (fun line2 => translateFileLoopF fuel env (lines.set i line2) (i + 1))
    else Except.ok lines

/-- `lines.length - i` is enough fuel: `set` keeps the length, the plain step
moves to `i + 1`, and the fence step moves to `m + 2` with `m ≥ i` by
`findCloserFrom_bounds`, so the distance to the end shrinks at every
iteration and the zero-fuel branch is reached only once `i` is past the
end. -/
def translateFileLoop (env : TEnv) (lines : List String) (i : Nat) :
    Except PyErr (List String) :=
  translateFileLoopF (lines.length - i) env lines i

/-- `translate_file`, after reading the file: drop the four header lines
(`lines[0]` of an empty rest is an `IndexError`), drop a duplicate-title
first line, then run the loop. -/
def translate_file (env : TEnv) (lines0 : List String) :
    Except PyErr (List String) :=
  match lines0.drop 4 with
  | [] => Except.error PyErr.indexErr
  | first :: rest =>
    let title := zim_filepath_to_title env.old_filepath
    let lines2 :=
      match findAll patTopline first.data with
      | [] => first :: rest
      | caps :: _ =>
        if pyReplace (String.mk (capLookup caps 1)) "_" " " = title then rest
        else first :: rest
    translateFileLoop env lines2 0

/-! ## Lines without wiki markup

A character is inert when it is a letter, a digit, a space, a period or the
line-ending newline: none of the patterns of `translate_line` can start a
match at such characters, so a line made only of them passes through every
stage unchanged. -/

def inertC (c : Char) : Bool :=
  c = ' ' || c = '.' || c = '\n' ||
  (('a' ≤ c) && (c ≤ 'z')) || (('A' ≤ c) && (c ≤ 'Z')) || (('0' ≤ c) && (c ≤ '9'))

/-- An inert character differs from every non-inert marker character. -/
theorem inert_ne {c m : Char} (h : inertC c = true) (hm : inertC m = false) :
    c ≠ m := by
  intro he
  rw [he, hm] at h
  exact Bool.noConfusion h

theorem all_of_suffix {p : Char → Bool} {l2 l : List Char}
    (hs : l2 <:+ l) (h : l.all p = true) : l2.all p = true := by
  obtain ⟨pre, hpre⟩ := hs
  rw [← hpre, List.all_append, Bool.and_eq_true] at h
  exact h.2

/-- A literal element fails on an input whose head is not that literal. -/
theorem runElemsF_lit_none {c : Char} {s : List Char}
    (h : ∀ d, s.head? = some d → d ≠ c) :
    ∀ fuel P st caps, runElemsF fuel (.lit c :: P) s st caps = none := by
  intro fuel P st caps
  match fuel, s with
  | 0, _ => rfl
  | _ + 1, [] => rfl
  | _ + 1, d :: s2 =>
    have hd : d ≠ c := h d rfl
    show (if d = c then _ else none) = none
    rw [if_neg hd]

/-- An open-group element only pushes onto the stack: failure of the rest is
failure of the whole. -/
theorem runElemsF_openG_none {n : Nat} {P : List PElem} {s : List Char}
    (h : ∀ fuel st caps, runElemsF fuel P s st caps = none) :
    ∀ fuel st caps, runElemsF fuel (.openG n :: P) s st caps = none := by
  intro fuel st caps
  match fuel with
  | 0 => rfl
  | fuel + 1 => exact h fuel ((n, s) :: st) caps

/-- A close-group element only records a capture: failure of the rest is
failure of the whole. -/
theorem runElemsF_closeG_none {n : Nat} {P : List PElem} {s : List Char}
    (h : ∀ fuel st caps, runElemsF fuel P s st caps = none) :
    ∀ fuel st caps, runElemsF fuel (.closeG n :: P) s st caps = none := by
  intro fuel st caps
  match fuel with
  | 0 => rfl
  | fuel + 1 =>
    show (match st.find? (fun e => e.1 = n) with
      | none => none
      | some e => runElemsF fuel P s st (caps ++ [(n, e.2.take (e.2.length - s.length))])) = none
    cases st.find? (fun e => e.1 = n) with
    | none => rfl
    | some e => exact h fuel st _

/-- A class with a positive lower bound fails on an input whose head
violates the class. -/
theorem runElemsF_cls_pos_none {p : Char → Bool} {lo : Nat} {hi : Option Nat}
    {lz : Bool} {P : List PElem} {s : List Char} (hlo : 0 < lo)
    (h : ∀ d, s.head? = some d → p d = false) :
    ∀ fuel st caps, runElemsF fuel (.cls p lo hi lz :: P) s st caps = none := by
  intro fuel st caps
  match fuel, s with
  | 0, _ => rfl
  | fuel + 1, [] =>
    show (if lo > 0 then _ else _) = none
    rw [if_pos hlo]
  | fuel + 1, d :: s2 =>
    have hd : p d = false := h d rfl
    show (if lo > 0 then if p d then _ else none else _) = none
    rw [if_pos hlo, hd]
    rfl

/-- A greedy class followed by a pattern that fails at every suffix of the
input fails as a whole, whatever the repetition bounds: every backtracking
position is some suffix. -/
theorem runElemsF_cls_block_none {p : Char → Bool} {P : List PElem}
    {s : List Char}
    (h : ∀ t, t <:+ s → ∀ fuel st caps, runElemsF fuel P t st caps = none) :
    ∀ lo hi fuel st caps, runElemsF fuel (.cls p lo hi false :: P) s st caps = none := by
  induction s with
  | nil =>
    intro lo hi fuel st caps
    match fuel with
    | 0 => rfl
    | fuel + 1 =>
      rw [runElemsF]
      by_cases hlo : lo > 0
      · rw [if_pos hlo]
      · rw [if_neg hlo]
        exact h [] ⟨[], rfl⟩ fuel st caps
  | cons c s2 ih =>
    have h2 : ∀ t, t <:+ s2 → ∀ fuel st caps, runElemsF fuel P t st caps = none :=
      fun t ht => h t (ht.trans ⟨[c], rfl⟩)
    intro lo hi fuel st caps
    match fuel with
    | 0 => rfl
    | fuel + 1 =>
      rw [runElemsF]
      by_cases hlo : lo > 0
      · rw [if_pos hlo]
        by_cases hp : p c = true
        · show (if p c = true then
              runElemsF fuel (.cls p (lo - 1) (decHi hi) false :: P) s2 st caps
            else none) = none
          rw [if_pos hp]
          exact ih h2 (lo - 1) (decHi hi) fuel st caps
        · show (if p c = true then
              runElemsF fuel (.cls p (lo - 1) (decHi hi) false :: P) s2 st caps
            else none) = none
          rw [if_neg hp]
      · rw [if_neg hlo]
        have hb1 : (if p c = true ∧ hiPos hi = true then
            runElemsF fuel (.cls p 0 (decHi hi) false :: P) s2 st caps
          else none) = none := by
          by_cases hc : p c = true ∧ hiPos hi = true
          · rw [if_pos hc]
            exact ih h2 0 (decHi hi) fuel st caps
          · rw [if_neg hc]
        show Option.orElse (if p c = true ∧ hiPos hi = true then
            runElemsF fuel (.cls p 0 (decHi hi) false :: P) s2 st caps
          else none) (fun _ => runElemsF fuel P (c :: s2) st caps) = none
        rw [hb1]
        exact h (c :: s2) (List.suffix_refl _) fuel st caps

theorem head_ne_of_inert {s : List Char} (h : s.all inertC = true) {m : Char}
    (hm : inertC m = false) : ∀ d, s.head? = some d → d ≠ m := by
  intro d hd
  have hmem : d ∈ s := List.mem_of_mem_head? hd
  rw [List.all_eq_true] at h
  exact inert_ne (h d hmem) hm

theorem all_of_sublist {p : Char → Bool} {l2 l : List Char}
    (hs : List.Sublist l2 l) (h : l.all p = true) : l2.all p = true := by
  rw [List.all_eq_true] at h ⊢
  exact fun x hx => h x (hs.subset hx)

/-- A pattern opening with a literal marker finds no match at the start of
an inert string. -/
theorem matchHere_lit_inert {m : Char} {P : List PElem} {s : List Char}
    (h : s.all inertC = true) (hm : inertC m = false) :
    matchHere (.lit m :: P) s = none :=
  runElemsF_lit_none (head_ne_of_inert h hm) _ _ _ _

/-- A pattern opening with a group and a literal marker finds no match at
the start of an inert string. -/
theorem matchHere_openG_lit_inert {n : Nat} {m : Char} {P : List PElem}
    {s : List Char} (h : s.all inertC = true) (hm : inertC m = false) :
    matchHere (.openG n :: .lit m :: P) s = none :=
  runElemsF_openG_none
    (fun fuel st caps => runElemsF_lit_none (head_ne_of_inert h hm) fuel P st caps)
    _ [] []

/-- The tail-equals heading pattern needs a `=` first. -/
theorem matchHere_headingStrip_inert {s : List Char} (h : s.all inertC = true) :
    matchHere patHeadingStrip s = none :=
  runElemsF_openG_none
    (fun fuel st caps => runElemsF_cls_pos_none (by omega)
      (fun d hd => decide_eq_false (head_ne_of_inert h (by decide) d hd)) fuel st caps)
    _ [] []

/-- The checklist pattern needs a `[` after the leading whitespace. -/
theorem matchHere_listMark_inert {mark : Char} {s : List Char}
    (h : s.all inertC = true) : matchHere (patListMark mark) s = none :=
  runElemsF_openG_none
    (fun fuel st caps => runElemsF_cls_block_none
      (fun t ht f2 st2 c2 => runElemsF_closeG_none
        (fun f3 st3 c3 =>
          runElemsF_lit_none (head_ne_of_inert (all_of_suffix ht h) (by decide)) f3 _ st3 c3)
        f2 st2 c2)
      0 none fuel st caps)
    _ [] []

/-- The mid-line tag pattern needs a `@` after the whitespace run. -/
theorem matchHere_tagMid_inert {s : List Char} (h : s.all inertC = true) :
    matchHere patTagMid s = none :=
  runElemsF_cls_block_none
    (fun t ht f2 st2 c2 =>
      runElemsF_lit_none (head_ne_of_inert (all_of_suffix ht h) (by decide)) f2 _ st2 c2)
    1 none _ [] []

/-- The malformed lookbehind pattern needs a `<` after the optional `!`. -/
theorem matchHere_colonItalic_inert {s : List Char} (h : s.all inertC = true) :
    matchHere patColonItalic s = none :=
  runElemsF_openG_none
    (fun fuel st caps => runElemsF_cls_block_none
      (fun t ht f2 st2 c2 =>
        runElemsF_lit_none (head_ne_of_inert (all_of_suffix ht h) (by decide)) f2 _ st2 c2)
      0 (some 1) fuel st caps)
    _ [] []

/-! Identity of the substitution operators in the no-match case. -/

theorem asub_id {pat : List PElem} {tm : List Tmpl} {s : List Char}
    (h : matchHere pat s = none) : asub pat tm s = s := by
  unfold asub
  rw [h]

theorem rsubAux_id {pat : List PElem} {tm : List Tmpl} :
    ∀ fuel s, (∀ t, t <:+ s → matchHere pat t = none) →
      rsubAux pat tm s fuel = s := by
  intro fuel
  induction fuel with
  | zero => intro s _; rfl
  | succ f ih =>
    intro s hs
    rw [rsubAux.eq_def]
    dsimp only
    rw [hs s (List.suffix_refl _)]
    cases s with
    | nil => rfl
    | cons c s2 =>
      show c :: rsubAux pat tm s2 f = c :: s2
      rw [ih s2 (fun t ht => hs t (ht.trans ⟨[c], rfl⟩))]

theorem rsubAll_id {pat : List PElem} {tm : List Tmpl} {s : List Char}
    (h : ∀ t, t <:+ s → matchHere pat t = none) : rsubAll pat tm s = s :=
  rsubAux_id _ s h

theorem stripNL_prefix_fst (s : List Char) : (stripNL s).1 <+: s := by
  unfold stripNL
  cases s.getLast? with
  | none => exact List.prefix_refl s
  | some c =>
    dsimp only
    by_cases hc : c = '\n'
    · rw [if_pos hc]
      exact List.dropLast_prefix s
    · rw [if_neg hc]

theorem stripNL_append (s : List Char) : (stripNL s).1 ++ (stripNL s).2 = s := by
  unfold stripNL
  cases hl : s.getLast? with
  | none => simp
  | some c =>
    dsimp only
    by_cases hc : c = '\n'
    · rw [if_pos hc]
      subst hc
      have hne : s ≠ [] := by
        intro he
        rw [he] at hl
        exact Option.noConfusion hl
      have hg : s.getLast hne = '\n' := by
        have := List.getLast?_eq_getLast s hne
        rw [hl] at this
        injection this with h2
        exact h2.symm
      show s.dropLast ++ ['\n'] = s
      rw [← hg]
      exact List.dropLast_append_getLast hne
    · rw [if_neg hc]
      simp

theorem esubAll_id {pat : List PElem} {tm : List Tmpl} {s : List Char}
    (h : ∀ t, t <:+ (stripNL s).1 → matchHere pat t = none) :
    esubAll pat tm s = s := by
  unfold esubAll
  dsimp only
  rw [rsubAll_id h]
  exact stripNL_append s

theorem easub_id {pat : List PElem} {tm : List Tmpl} {s : List Char}
    (h : matchHere pat (stripNL s).1 = none) : easub pat tm s = s := by
  unfold easub
  dsimp only
  rw [asub_id h]
  exact stripNL_append s

theorem scanMatch_none {pat : List PElem} :
    ∀ s, (∀ t, t <:+ s → matchHere pat t = none) → scanMatch pat s = none := by
  intro s
  induction s with
  | nil =>
    intro hs
    unfold scanMatch
    rw [hs [] (List.suffix_refl _)]
  | cons c s2 ih =>
    intro hs
    unfold scanMatch
    rw [hs (c :: s2) (List.suffix_refl _), ih (fun t ht => hs t (ht.trans ⟨[c], rfl⟩))]
    rfl

theorem findAll_nil {pat : List PElem} {s : List Char}
    (h : ∀ t, t <:+ s → matchHere pat t = none) : findAll pat s = [] := by
  unfold findAll
  rw [findAllAux, scanMatch_none s h]

theorem findAllS2_nil {pat : List PElem} {s : String}
    (h : ∀ t, t <:+ s.data → matchHere pat t = none) : findAllS2 pat s = [] := by
  unfold findAllS2
  rw [findAll_nil h]
  rfl

/-! String-level identity wrappers.  `String.mk s.data = s` holds by
structure eta. -/

theorem asubS_id {pat : List PElem} {tm : List Tmpl} {s : String}
    (h : matchHere pat s.data = none) : asubS pat tm s = s := by
  unfold asubS
  rw [asub_id h]

theorem easubS_id {pat : List PElem} {tm : List Tmpl} {s : String}
    (h : matchHere pat (stripNL s.data).1 = none) : easubS pat tm s = s := by
  unfold easubS
  rw [easub_id h]

theorem rsubAllS_id {pat : List PElem} {tm : List Tmpl} {s : String}
    (h : ∀ t, t <:+ s.data → matchHere pat t = none) : rsubAllS pat tm s = s := by
  unfold rsubAllS
  rw [rsubAll_id h]

theorem esubAllS_id {pat : List PElem} {tm : List Tmpl} {s : String}
    (h : ∀ t, t <:+ (stripNL s.data).1 → matchHere pat t = none) :
    esubAllS pat tm s = s := by
  unfold esubAllS
  rw [esubAll_id h]

/-! ## Concrete environments

Environments with the filesystem-dependent pieces fixed, used to exercise
`translate_line` on concrete link and embed tokens: a page `Z/Parent.txt`
with no recorded notes or attachments (`envP`), the same page with one
underscore-named note (`envU`), and a page `Z/Parent/page.txt` with one
attachment under global (`envG`), non-global (`envL`) or no (`envE`)
attachment mapping. -/

def envP : TEnv :=
  { zim_dir := "Z", obs_dir := "O", old_filepath := "Z/Parent.txt",
    note_map := [], file_map := [], use_folder_notes := false,
    use_global_attachments := false, global_attachments_relative_path := "attachments",
    isDir := fun _ => false, imageSize := fun _ => none, year := 2026 }

def envU : TEnv :=
  { zim_dir := "Z", obs_dir := "O", old_filepath := "Z/Parent.txt",
    note_map := [("Z/New_Page.txt", "O/New Page.md")], file_map := [],
    use_folder_notes := false, use_global_attachments := false,
    global_attachments_relative_path := "attachments",
    isDir := fun _ => false, imageSize := fun _ => none, year := 2026 }

def envG : TEnv :=
  { zim_dir := "Z", obs_dir := "O", old_filepath := "Z/Parent/page.txt",
    note_map := [], file_map := [("Z/Parent/page/img.png", "O/attachments/img.png")],
    use_folder_notes := false, use_global_attachments := true,
    global_attachments_relative_path := "attachments",
    isDir := fun _ => false, imageSize := fun _ => none, year := 2026 }

def envL : TEnv :=
  { zim_dir := "Z", obs_dir := "O", old_filepath := "Z/Parent/page.txt",
    note_map := [], file_map := [("Z/Parent/page/img.png", "O/files/img.png")],
    use_folder_notes := false, use_global_attachments := false,
    global_attachments_relative_path := "attachments",
    isDir := fun _ => false, imageSize := fun _ => none, year := 2026 }

def envE : TEnv :=
  { zim_dir := "Z", obs_dir := "O", old_filepath := "Z/Parent/page.txt",
    note_map := [], file_map := [], use_folder_notes := false,
    use_global_attachments := true, global_attachments_relative_path := "attachments",
    isDir := fun _ => false, imageSize := fun _ => none, year := 2026 }

def envD : TEnv :=
  { zim_dir := "Z", obs_dir := "O", old_filepath := "Z/My_Page.txt",
    note_map := [], file_map := [("Z/My_Page/img.png", "O/attachments/img.png")],
    use_folder_notes := false, use_global_attachments := true,
    global_attachments_relative_path := "attachments",
    isDir := fun _ => false, imageSize := fun _ => none, year := 2026 }

def envD2 : TEnv :=
  { zim_dir := "Z", obs_dir := "O", old_filepath := "Z/My_Page.txt",
    note_map := [], file_map := [("Z/My Page/img.png", "O/attachments/img.png")],
    use_folder_notes := false, use_global_attachments := true,
    global_attachments_relative_path := "attachments",
    isDir := fun _ => false, imageSize := fun _ => none, year := 2026 }

/-- In the page `Z/Parent.txt`, the token `[[+Sub]]` resolves through
`Parent:Sub` to the target `Parent/Sub`, but because the display text is
still `+Sub`, the rendered token is the labeled link `[+Sub](Parent/Sub)`,
not the bare double-bracket reference `[[Parent/Sub]]` the specification
describes. -/
theorem plus_link_not_bare :
    translate_line envP "[[+Sub]]\n" = Except.ok "[+Sub](Parent/Sub)\n" ∧
    ("[+Sub](Parent/Sub)\n" : String) ≠ "[[Parent/Sub]]\n" :=
  ⟨rfl, by decide⟩

/-- **C5.** Amended: a `[[+Sub]]` token in page `Z/Parent.txt` is rewritten
to the target `Parent/Sub` (the page path joined with the rest of the
target), but the display text keeps the original `+Sub`, so the token is
rendered as the labeled link `[+Sub](Parent/Sub)`; the bare double-bracket
form is produced only when the normalized target coincides with the display
text, as for `[[ab]]`. -/
theorem plus_link_labeled_render (env : TEnv)
    (hz : env.zim_dir = "Z") (ho : env.obs_dir = "O")
    (hf : env.old_filepath = "Z/Parent.txt")
    (hn : env.note_map = []) (hm : env.file_map = [])
    (hs : env.use_folder_notes = false) (hg : env.use_global_attachments = false)
    (ha : env.global_attachments_relative_path = "attachments")
    (hd : env.isDir = fun _ => false) (hi : env.imageSize = fun _ => none)
    (hy : env.year = 2026) :
    translate_line env "[[+Sub]]\n" = Except.ok "[+Sub](Parent/Sub)\n" ∧
    translate_line env "[[ab]]\n" = Except.ok "[[ab]]\n" := by
  obtain ⟨z, o, fp, nm, fm, ufn, uga, gap, isd, isz, yr⟩ := env
  dsimp only at hz ho hf hn hm hs hg ha hd hi hy
  subst hz; subst ho; subst hf; subst hn; subst hm; subst hs; subst hg
  subst ha; subst hd; subst hi; subst hy
  exact ⟨rfl, rfl⟩

theorem plus_link_labeled_render_witness :
    translate_line envP "[[+Sub]]\n" = Except.ok "[+Sub](Parent/Sub)\n" ∧
    translate_line envP "[[ab]]\n" = Except.ok "[[ab]]\n" :=
  plus_link_labeled_render envP rfl rfl rfl rfl rfl rfl rfl rfl rfl rfl rfl

/-- A link target absent from the note mapping in both its original and its
underscored form is not passed through unmodified: `[[a:b]]` is rewritten to
`[a:b](a/b)` even though nothing resolves, and the function has no warning
output at all. -/
theorem unresolved_link_still_rewritten :
    translate_line envP "[[a:b]]\n" = Except.ok "[a:b](a/b)\n" ∧
    ("[a:b](a/b)\n" : String) ≠ "[[a:b]]\n" :=
  ⟨rfl, by decide⟩

/-- **C7.** Amended: the underscore retry exists and adopts the underscored
form when that one is recorded (`[[New Page]]` becomes
`[New Page](New_Page)`), but when neither form resolves the token is still
rewritten with the normalized target (`[[a:b]]` becomes `[a:b](a/b)`): there
is no unresolved-link warning and no pass-through of the original markup;
the original survives only when normalization leaves the target equal to
the display text. -/
theorem unresolved_link_rewrite_behavior (env : TEnv)
    (hz : env.zim_dir = "Z") (ho : env.obs_dir = "O")
    (hf : env.old_filepath = "Z/Parent.txt")
    (hn : env.note_map = [("Z/New_Page.txt", "O/New Page.md")])
    (hm : env.file_map = [])
    (hs : env.use_folder_notes = false) (hg : env.use_global_attachments = false)
    (ha : env.global_attachments_relative_path = "attachments")
    (hd : env.isDir = fun _ => false) (hi : env.imageSize = fun _ => none)
    (hy : env.year = 2026) :
    translate_line env "[[a:b]]\n" = Except.ok "[a:b](a/b)\n" ∧
    translate_line env "[[New Page]]\n" = Except.ok "[New Page](New_Page)\n" := by
  obtain ⟨z, o, fp, nm, fm, ufn, uga, gap, isd, isz, yr⟩ := env
  dsimp only at hz ho hf hn hm hs hg ha hd hi hy
  subst hz; subst ho; subst hf; subst hn; subst hm; subst hs; subst hg
  subst ha; subst hd; subst hi; subst hy
  exact ⟨rfl, rfl⟩

theorem unresolved_link_rewrite_behavior_witness :
    translate_line envU "[[a:b]]\n" = Except.ok "[a:b](a/b)\n" ∧
    translate_line envU "[[New Page]]\n" = Except.ok "[New Page](New_Page)\n" :=
  unresolved_link_rewrite_behavior envU rfl rfl rfl rfl rfl rfl rfl rfl rfl rfl rfl

/-- An explicit `|puppy` label on a `wp?` link is discarded: the rendered
label is the `wp?` rest (`Dog`), not the author-supplied label. -/
theorem wp_explicit_label_discarded :
    translate_line envP "[[wp?Dog|puppy]]\n" =
      Except.ok "[Dog](https://wikipedia.org/wiki/Dog)\n" ∧
    ("[Dog](https://wikipedia.org/wiki/Dog)\n" : String) ≠
      "[puppy](https://wikipedia.org/wiki/Dog)\n" :=
  ⟨rfl, by decide⟩

/-- **C8.** Amended: a `wp?REST` target becomes the fixed encyclopedia URL
followed by REST with spaces replaced by underscores, and the rendered label
is always REST verbatim — the assignment overwrites any explicit `|label`
the author supplied, so `[[wp?Dog|puppy]]` renders with label `Dog`, and
`[[wp?Red Dog]]` renders with label `Red Dog` and target
`https://wikipedia.org/wiki/Red_Dog`. -/
theorem wp_label_is_rest (env : TEnv)
    (hz : env.zim_dir = "Z") (ho : env.obs_dir = "O")
    (hf : env.old_filepath = "Z/Parent.txt")
    (hn : env.note_map = []) (hm : env.file_map = [])
    (hs : env.use_folder_notes = false) (hg : env.use_global_attachments = false)
    (ha : env.global_attachments_relative_path = "attachments")
    (hd : env.isDir = fun _ => false) (hi : env.imageSize = fun _ => none)
    (hy : env.year = 2026) :
    translate_line env "[[wp?Dog|puppy]]\n" =
      Except.ok "[Dog](https://wikipedia.org/wiki/Dog)\n" ∧
    translate_line env "[[wp?Red Dog]]\n" =
      Except.ok "[Red Dog](https://wikipedia.org/wiki/Red_Dog)\n" := by
  obtain ⟨z, o, fp, nm, fm, ufn, uga, gap, isd, isz, yr⟩ := env
  dsimp only at hz ho hf hn hm hs hg ha hd hi hy
  subst hz; subst ho; subst hf; subst hn; subst hm; subst hs; subst hg
  subst ha; subst hd; subst hi; subst hy
  exact ⟨rfl, rfl⟩

theorem wp_label_is_rest_witness :
    translate_line envP "[[wp?Dog|puppy]]\n" =
      Except.ok "[Dog](https://wikipedia.org/wiki/Dog)\n" ∧
    translate_line envP "[[wp?Red Dog]]\n" =
      Except.ok "[Red Dog](https://wikipedia.org/wiki/Red_Dog)\n" :=
  wp_label_is_rest envP rfl rfl rfl rfl rfl rfl rfl rfl rfl rfl rfl

/-- On a page whose relative path contains an underscore (`Z/My_Page.txt`),
the same relative-dot token resolves through different keys for links and
embeds: the link goes through the title path `My Page` (underscores replaced
by spaces), the embed through the literal stem `My_Page`.  With the
attachment recorded under its real underscore path the link raises the
`KeyError` while the embed succeeds; with a space-keyed mapping the roles
swap. -/
theorem rel_dot_link_embed_diverge :
    (translate_line envD "[[./img.png]]\n" = Except.error PyErr.keyErr ∧
      translate_line envD "\x7b\x7b./img.png\x7d\x7d\n" = Except.ok "![[img.png]]\n") ∧
    (translate_line envD2 "[[./img.png]]\n" = Except.ok "[[img.png]]\n" ∧
      translate_line envD2 "\x7b\x7b./img.png\x7d\x7d\n" = Except.error PyErr.keyErr) :=
  ⟨⟨rfl, rfl⟩, ⟨rfl, rfl⟩⟩

/-- **C6.** Amended: for relative-dot targets both links and embeds consult
the attachment mapping, a miss is the fatal `KeyError`, and a hit is
expressed relative to the global attachment directory under
global-attachment mode and relative to the destination root otherwise — but
the lookup keys differ: a link resolves against the page's title path
(underscores replaced by spaces), an embed against the page's literal
relative path with the suffix stripped (underscores kept), so the two
resolutions coincide only on pages whose relative path contains no
underscore (`Z/Parent/page.txt`) and diverge on an underscore-named page
(`Z/My_Page.txt`). -/
theorem rel_dot_resolution (env : TEnv)
    (hz : env.zim_dir = "Z") (ho : env.obs_dir = "O")
    (hn : env.note_map = []) (hs : env.use_folder_notes = false)
    (ha : env.global_attachments_relative_path = "attachments")
    (hd : env.isDir = fun _ => false) (hi : env.imageSize = fun _ => none)
    (hy : env.year = 2026) :
    (env.old_filepath = "Z/Parent/page.txt" → env.file_map = [] →
      env.use_global_attachments = true →
      translate_line env "[[./img.png]]\n" = Except.error PyErr.keyErr ∧
      translate_line env "\x7b\x7b./img.png\x7d\x7d\n" = Except.error PyErr.keyErr) ∧
    (env.old_filepath = "Z/Parent/page.txt" →
      env.file_map = [("Z/Parent/page/img.png", "O/attachments/img.png")] →
      env.use_global_attachments = true →
      translate_line env "[[./img.png]]\n" = Except.ok "[[img.png]]\n" ∧
      translate_line env "\x7b\x7b./img.png\x7d\x7d\n" = Except.ok "![[img.png]]\n") ∧
    (env.old_filepath = "Z/Parent/page.txt" →
      env.file_map = [("Z/Parent/page/img.png", "O/files/img.png")] →
      env.use_global_attachments = false →
      translate_line env "[[./img.png]]\n" = Except.ok "[img.png](files/img.png)\n" ∧
      translate_line env "\x7b\x7b./img.png\x7d\x7d\n" = Except.ok "![[files/img.png]]\n") ∧
    (env.old_filepath = "Z/My_Page.txt" →
      env.file_map = [("Z/My_Page/img.png", "O/attachments/img.png")] →
      env.use_global_attachments = true →
      translate_line env "[[./img.png]]\n" = Except.error PyErr.keyErr ∧
      translate_line env "\x7b\x7b./img.png\x7d\x7d\n" = Except.ok "![[img.png]]\n") := by
  obtain ⟨z, o, fp, nm, fm, ufn, uga, gap, isd, isz, yr⟩ := env
  dsimp only at hz ho hn hs ha hd hi hy ⊢
  subst hz; subst ho; subst hn; subst hs
  subst ha; subst hd; subst hi; subst hy
  refine ⟨fun hf hm hg => ?_, fun hf hm hg => ?_, fun hf hm hg => ?_,
    fun hf hm hg => ?_⟩ <;>
    (subst hf; subst hm; subst hg; exact ⟨rfl, rfl⟩)

theorem rel_dot_resolution_witness :
    (translate_line envE "[[./img.png]]\n" = Except.error PyErr.keyErr ∧
      translate_line envE "\x7b\x7b./img.png\x7d\x7d\n" = Except.error PyErr.keyErr) ∧
    (translate_line envG "[[./img.png]]\n" = Except.ok "[[img.png]]\n" ∧
      translate_line envG "\x7b\x7b./img.png\x7d\x7d\n" = Except.ok "![[img.png]]\n") ∧
    (translate_line envL "[[./img.png]]\n" = Except.ok "[img.png](files/img.png)\n" ∧
      translate_line envL "\x7b\x7b./img.png\x7d\x7d\n" = Except.ok "![[files/img.png]]\n") ∧
    (translate_line envD "[[./img.png]]\n" = Except.error PyErr.keyErr ∧
      translate_line envD "\x7b\x7b./img.png\x7d\x7d\n" = Except.ok "![[img.png]]\n") :=
  ⟨(rel_dot_resolution envE rfl rfl rfl rfl rfl rfl rfl rfl).1 rfl rfl rfl,
   (rel_dot_resolution envG rfl rfl rfl rfl rfl rfl rfl rfl).2.1 rfl rfl rfl,
   (rel_dot_resolution envL rfl rfl rfl rfl rfl rfl rfl rfl).2.2.1 rfl rfl rfl,
   (rel_dot_resolution envD rfl rfl rfl rfl rfl rfl rfl rfl).2.2.2 rfl rfl rfl⟩

theorem ebind_ok {a : Type} {b : Type} (x : a) (k : a → Except PyErr b) :
    (Except.ok x : Except PyErr a) >>= k = k x := rfl

/-- The highlight rewrite `__hl__` → `==hl==` produces a line that a second
pass turns into a heading `#####hl`: the transformation is not idempotent on
its own output. -/
theorem highlight_not_idempotent :
    translate_line envP "__hl__\n" = Except.ok "==hl==\n" ∧
    translate_line envP "==hl==\n" = Except.ok "#####hl\n" ∧
    ("#####hl\n" : String) ≠ "==hl==\n" :=
  ⟨rfl, rfl, by decide⟩

/-- **C9.** Amended: the transformation is a no-op on lines free of marker
characters: every line consisting solely of letters, digits, spaces, periods
and newlines is a fixed point of `translate_line`, for every environment.
Idempotence fails in general because the output alphabet overlaps the wiki
markup (the `==` produced by the highlight rule is heading syntax at the
start of a line). -/
theorem inert_line_fixed_point (env : TEnv) (s : String)
    (h : s.data.all inertC = true) : translate_line env s = Except.ok s := by
  have hp : (stripNL s.data).1.all inertC = true :=
    all_of_sublist (stripNL_prefix_fst s.data).sublist h
  have hsfx : ∀ t, t <:+ s.data → t.all inertC = true :=
    fun t ht => all_of_suffix ht h
  have hsfxp : ∀ t, t <:+ (stripNL s.data).1 → t.all inertC = true :=
    fun t ht => all_of_sublist (ht.sublist.trans (stripNL_prefix_fst s.data).sublist) h
  have e0 : easubS patHeadingStrip tmplHeadingStrip s = s :=
    easubS_id (matchHere_headingStrip_inert hp)
  have e1 : asubS (litStr "======") [Tmpl.str "#"] s = s :=
    asubS_id (matchHere_lit_inert h (by decide))
  have e2 : asubS (litStr "=====") [Tmpl.str "##"] s = s :=
    asubS_id (matchHere_lit_inert h (by decide))
  have e3 : asubS (litStr "====") [Tmpl.str "###"] s = s :=
    asubS_id (matchHere_lit_inert h (by decide))
  have e4 : asubS (litStr "===") [Tmpl.str "####"] s = s :=
    asubS_id (matchHere_lit_inert h (by decide))
  have e5 : asubS (litStr "==") [Tmpl.str "#####"] s = s :=
    asubS_id (matchHere_lit_inert h (by decide))
  have e6 : asubS (litStr "=") [Tmpl.str "######"] s = s :=
    asubS_id (matchHere_lit_inert h (by decide))
  have e7 : esubAllS patDate1 tmplDate1 s = s :=
    esubAllS_id (fun t ht => matchHere_lit_inert (hsfxp t ht) (by decide))
  have e8 : esubAllS patDate2 tmplDate2 s = s :=
    esubAllS_id (fun t ht => matchHere_lit_inert (hsfxp t ht) (by decide))
  have e9 : esubAllS patDate3 tmplDate3 s = s :=
    esubAllS_id (fun t ht => matchHere_lit_inert (hsfxp t ht) (by decide))
  have e10 : esubAllS patDate4 (tmplDate4 env.year) s = s :=
    esubAllS_id (fun t ht => matchHere_lit_inert (hsfxp t ht) (by decide))
  have hfa : findAllS2 patLink s = [] :=
    findAllS2_nil (fun t ht => matchHere_openG_lit_inert (hsfx t ht) (by decide))
  have hfe : findAllS2 patEmbed s = [] :=
    findAllS2_nil (fun t ht => matchHere_openG_lit_inert (hsfx t ht) (by decide))
  have p1 : asubS (patListMark '*') (tmplListMark '*') s = s :=
    asubS_id (matchHere_listMark_inert h)
  have p2 : asubS (patListMark 'x') (tmplListMark 'x') s = s :=
    asubS_id (matchHere_listMark_inert h)
  have p3 : asubS (patListMark '>') (tmplListMark '>') s = s :=
    asubS_id (matchHere_listMark_inert h)
  have p4 : asubS (patListMark ' ') (tmplListMark ' ') s = s :=
    asubS_id (matchHere_listMark_inert h)
  have p5 : asubS patTagStart tmplTag s = s :=
    asubS_id (matchHere_lit_inert h (by decide))
  have p6 : rsubAllS patTagMid tmplTag s = s :=
    rsubAllS_id (fun t ht => matchHere_tagMid_inert (hsfx t ht))
  have p7 : rsubAllS patPlusLink tmplPlusLink s = s :=
    rsubAllS_id (fun t ht => matchHere_lit_inert (hsfx t ht) (by decide))
  have p8 : rsubAllS patItalic tmplStarWrap s = s :=
    rsubAllS_id (fun t ht => matchHere_lit_inert (hsfx t ht) (by decide))
  have p9 : rsubAllS patSubscript tmplSubscript s = s :=
    rsubAllS_id (fun t ht => matchHere_lit_inert (hsfx t ht) (by decide))
  have p10 : rsubAllS patSuperscript tmplSuperscript s = s :=
    rsubAllS_id (fun t ht => matchHere_lit_inert (hsfx t ht) (by decide))
  have p11 : rsubAllS patStrike tmplStrike s = s :=
    rsubAllS_id (fun t ht => matchHere_lit_inert (hsfx t ht) (by decide))
  have p12 : rsubAllS patColonItalic tmplStarWrap s = s :=
    rsubAllS_id (fun t ht => matchHere_colonItalic_inert (hsfx t ht))
  have p13 : rsubAllS patBold tmplBold s = s :=
    rsubAllS_id (fun t ht => matchHere_lit_inert (hsfx t ht) (by decide))
  have p14 : rsubAllS patHighlight tmplHighlight s = s :=
    rsubAllS_id (fun t ht => matchHere_lit_inert (hsfx t ht) (by decide))
  have p15 : rsubAllS patHr tmplHr s = s :=
    rsubAllS_id (fun t ht => matchHere_lit_inert (hsfx t ht) (by decide))
  rw [translate_line]
  dsimp only
  rw [e0, e1, e2, e3, e4, e5, e6, e7, e8, e9, e10, hfa]
  rw [show foldTokens (processLinkToken env) ([] : List (String × String)) s =
    Except.ok s from rfl]
  rw [ebind_ok]
  rw [hfe]
  rw [show foldTokens (processEmbedToken env) ([] : List (String × String)) s =
    Except.ok s from rfl]
  rw [ebind_ok]
  rw [p1, p2, p3, p4, p5, p6, p7, p8, p9, p10, p11, p12, p13, p14, p15]

theorem inert_line_fixed_point_witness :
    translate_line envP "hello world 2.0\n" = Except.ok "hello world 2.0\n" :=
  inert_line_fixed_point envP "hello world 2.0\n" (by decide)

theorem pyStartsWith_backtick_closer (s : String) :
    pyStartsWith ("```" ++ s) "\x7d\x7d\x7d" = false := by
  have hd : ("```" ++ s).data = '`' :: '`' :: '`' :: s.data := rfl
  simp [pyStartsWith, hd, List.take]

/-- **C10.** A page line starting with the code-fence opener and no line from
that point on starting with three closing braces makes the translation loop
fail with the out-of-range error; in particular a page whose body starts with
such an opener (and whose first body line carries no duplicate-title match)
makes the whole file translation fail with that error, instead of
terminating normally. -/
theorem code_fence_without_closer_errors (env : TEnv) (lines : List String)
    (i : Nat) (h : i < lines.length)
    (hopen2 : pyStartsWith (lines.get ⟨i, h⟩) "\x7b\x7b\x7bcode:" = true)
    (hnoc : ∀ m (hm : m < lines.length), i ≤ m →
      pyStartsWith (lines.get ⟨m, hm⟩) "\x7d\x7d\x7d" = false) :
    translateFileLoop env lines i = Except.error PyErr.indexErr ∧
    (∀ lines0, lines0.drop 4 = lines → i = 0 →
      findAll patTopline (lines.get ⟨i, h⟩).data = [] →
      translate_file env lines0 = Except.error PyErr.indexErr) := by
  have hloop : translateFileLoop env lines i = Except.error PyErr.indexErr := by
    obtain ⟨f, hf⟩ : ∃ f, lines.length - i = f + 1 := ⟨lines.length - i - 1, by omega⟩
    rw [translateFileLoop, hf, translateFileLoopF, dif_pos h, if_pos hopen2]
    have hfc : findCloserFrom
        (lines.set i ("```" ++ parseLang (lines.get ⟨i, h⟩) ++ "\n")) i = none := by
      apply findCloserFrom_eq_none
      intro m hm him
      rw [List.length_set] at hm
      by_cases hmi : m = i
      · subst hmi
        rw [List.get_set_eq]
        exact pyStartsWith_backtick_closer _
      · have hne : i ≠ m := fun he => hmi he.symm
        rw [List.get_set_ne hne]
        exact hnoc m hm him
    rw [hfc]
    rfl
  refine ⟨hloop, ?_⟩
  intro lines0 hdrop hi htop
  subst hi
  rw [translate_file, hdrop]
  match hl : lines with
  | first :: rest =>
    have htop2 : findAll patTopline first.data = [] := by simpa using htop
    dsimp only
    rw [htop2]
    dsimp only
    exact hloop

/-- Concrete instance: a two-line body whose first line opens a code fence
and which contains no closing-brace line errors out, both through the loop
and through `translate_file` on the full file. -/
theorem code_fence_without_closer_errors_witness :
    translateFileLoop
      { zim_dir := "Z", obs_dir := "O", old_filepath := "Z/Parent/page.txt",
        note_map := [], file_map := [], use_folder_notes := false,
        use_global_attachments := false, global_attachments_relative_path := "a",
        isDir := fun _ => false, imageSize := fun _ => none, year := 2026 }
      ["\x7b\x7b\x7bcode: lang=\"python3\"\n", "print(1)\n"] 0 =
      Except.error PyErr.indexErr ∧
    translate_file
      { zim_dir := "Z", obs_dir := "O", old_filepath := "Z/Parent/page.txt",
        note_map := [], file_map := [], use_folder_notes := false,
        use_global_attachments := false, global_attachments_relative_path := "a",
        isDir := fun _ => false, imageSize := fun _ => none, year := 2026 }
      ["h1\n", "h2\n", "h3\n", "h4\n",
        "\x7b\x7b\x7bcode: lang=\"python3\"\n", "print(1)\n"] =
      Except.error PyErr.indexErr := by
  have hmain := code_fence_without_closer_errors
    { zim_dir := "Z", obs_dir := "O", old_filepath := "Z/Parent/page.txt",
      note_map := [], file_map := [], use_folder_notes := false,
      use_global_attachments := false, global_attachments_relative_path := "a",
      isDir := fun _ => false, imageSize := fun _ => none, year := 2026 }
    ["\x7b\x7b\x7bcode: lang=\"python3\"\n", "print(1)\n"] 0 (by decide)
    (by decide) (by decide)
  exact ⟨hmain.1, hmain.2
    ["h1\n", "h2\n", "h3\n", "h4\n", "\x7b\x7b\x7bcode: lang=\"python3\"\n",
      "print(1)\n"] rfl rfl (by decide)⟩

end Zim2Md
